import Mathlib

/-!
Shallow embedding of the CDCL SAT solver from `cdcl/algorithm_backbone.py`
and its driver / DIMACS parser from `cdcl/tester.py`.

Conventions of the embedding:
* Python `dict`s (insertion-ordered maps) are association lists
  `List (Nat × α)`; `aset` updates in place or appends, `aerase` removes the
  key (Python `del`; Python raises `KeyError` on a missing key, the total
  model simply leaves the list unchanged — all verified uses have the key
  present), `alookup` finds the value.
* Python `float` activity scores are modelled as exact rationals `PyFloat`,
  kept as unreduced fractions so that every operation reduces in the kernel
  (the decimal literals 0.85, 1.0, 1e100, ... are exact rationals; the code
  only ever adds, multiplies and order-compares activities, and those are
  exact on unreduced fractions; none of the verified claims depends on float
  rounding).
* Python `while` loops are fuel-indexed recursions; running out of fuel is a
  distinguished outcome, never conflated with a real result.
* Literals are signed integers (`Int`), variables are `Nat` (the Python code
  uses `abs(lit)`).
-/

/-- Lookup in an insertion-ordered association list (Python `d[k]` / `k in d`). -/
def alookup {α : Type} : List (Nat × α) → Nat → Option α
  | [], _ => none
  | p :: rest, k => if p.1 = k then some p.2 else alookup rest k

/-- `d[k] = v` on a Python dict: update in place if the key exists, else append. -/
def aset {α : Type} : List (Nat × α) → Nat → α → List (Nat × α)
  | [], k, v => [(k, v)]
  | p :: rest, k, v => if p.1 = k then (k, v) :: rest else p :: aset rest k v

/-- `del d[k]` on a Python dict (total model: no-op when the key is absent). -/
def aerase {α : Type} : List (Nat × α) → Nat → List (Nat × α)
  | [], _ => []
  | p :: rest, k => if p.1 = k then rest else p :: aerase rest k

/-- The keys of the association list are distinct (true of every list that
represents a Python dict). -/
def akeysNodup {α : Type} (m : List (Nat × α)) : Prop := (m.map Prod.fst).Nodup

/-- Exact rational, kept as an unreduced fraction with positive denominator.
The solver's activity arithmetic only adds, multiplies and order-compares,
so no normalisation is ever needed and everything evaluates by kernel
reduction. -/
structure PyFloat where
  num : Int
  den : Int
  deriving Repr, DecidableEq

instance : OfNat PyFloat n := ⟨⟨n, 1⟩⟩

instance : OfScientific PyFloat :=
  ⟨fun m b e => if b then ⟨(m : Int), (10 : Int) ^ e⟩ else ⟨(m : Int) * (10 : Int) ^ e, 1⟩⟩

instance : Add PyFloat := ⟨fun a b => ⟨a.num * b.den + b.num * a.den, a.den * b.den⟩⟩

instance : Mul PyFloat := ⟨fun a b => ⟨a.num * b.num, a.den * b.den⟩⟩

instance : LT PyFloat := ⟨fun a b => a.num * b.den < b.num * a.den⟩

instance (a b : PyFloat) : Decidable (a < b) :=
  inferInstanceAs (Decidable (a.num * b.den < b.num * a.den))

/-- A clause is a list of nonzero signed literals, as in the Python lists. -/
abbrev Clause := List Int

/-- State of `CDCLSolver.__init__` in `algorithm_backbone.py`, field for field. -/
structure CDCLSolver where
  assignment : List (Nat × Bool)
  learned_clauses : List Clause
  decision_level : Nat
  level : List (Nat × Nat)
  antecedent : List (Nat × Clause)
  trail : List Nat
  max_var : Nat
  activity : List (Nat × PyFloat)
  decay_factor : PyFloat
  bump_value : PyFloat
  restarts : Nat
  conflicts : Nat
  restart_threshold : Nat
  restart_multiplier : PyFloat
  luby_sequence : List Nat
  luby_base : Nat
  clause_deletion_threshold : Nat
  clause_activity : List (Nat × PyFloat)
  clause_decay : PyFloat
  saved_phases : List (Nat × Bool)
  deriving Repr

/-- The defaults set by `CDCLSolver.__init__`. -/
def CDCLSolver.mkInit : CDCLSolver where
  assignment := []
  learned_clauses := []
  decision_level := 0
  level := []
  antecedent := []
  trail := []
  max_var := 0
  activity := []
  decay_factor := 0.85
  bump_value := 1
  restarts := 0
  conflicts := 0
  restart_threshold := 50
  restart_multiplier := 1.1
  luby_sequence := [1]
  luby_base := 100
  clause_deletion_threshold := 200
  clause_activity := []
  clause_decay := 0.999
  saved_phases := []

/-- `initialize_activity` (source name `initialize_activity`): zero activity and
`False` saved phase for every variable `1..max_var`. -/
def init_activity (s : CDCLSolver) : CDCLSolver :=
  ((List.range s.max_var).map (· + 1)).foldl
    (fun s v =>
      { s with activity := aset s.activity v 0,
               saved_phases := aset s.saved_phases v false }) s

/-- `bump_variable_activity`: add `bump_value`, rescaling everything by `1e-100`
when the score passes `1e100`. -/
def bump_variable_activity (s : CDCLSolver) (var : Nat) : CDCLSolver :=
  let act0 := if (alookup s.activity var).isSome then s.activity else aset s.activity var 0
  let newV : PyFloat := (alookup act0 var).getD 0 + s.bump_value
  let act1 := aset act0 var newV
  if newV > 1e100 then
    { s with activity := act1.map (fun p => (p.1, p.2 * 1e-100)),
             bump_value := s.bump_value * 1e-100 }
  else
    { s with activity := act1 }

/-- `decay_variable_activity`: multiply every variable activity by `decay_factor`. -/
def decay_variable_activity (s : CDCLSolver) : CDCLSolver :=
  { s with activity := s.activity.map (fun p => (p.1, p.2 * s.decay_factor)) }

/-- `bump_clause_activity`. -/
def bump_clause_activity (s : CDCLSolver) (idx : Nat) : CDCLSolver :=
  let act0 := if (alookup s.clause_activity idx).isSome then s.clause_activity
              else aset s.clause_activity idx 0
  { s with clause_activity := aset act0 idx ((alookup act0 idx).getD 0 + 1) }

/-- `decay_clause_activity`. -/
def decay_clause_activity (s : CDCLSolver) : CDCLSolver :=
  { s with clause_activity := s.clause_activity.map (fun p => (p.1, p.2 * s.clause_decay)) }

/-- Stable descending insertion, modelling Python's stable
`sorted(..., reverse=True)` applied by `clean_learned_clauses`. -/
def insertDesc (key : Nat → PyFloat) (x : Nat) : List Nat → List Nat
  | [] => [x]
  | y :: ys => if key x > key y then x :: y :: ys else y :: insertDesc key x ys

/-- Stable descending sort by key. -/
def sortDesc (key : Nat → PyFloat) (l : List Nat) : List Nat :=
  l.foldl (fun acc x => insertDesc key x acc) []

/-- `clean_learned_clauses`: keep the top third (at least 50) of learned
clauses by activity, re-indexing `clause_activity`. -/
def clean_learned_clauses (s : CDCLSolver) : CDCLSolver :=
  if s.learned_clauses.length ≤ s.clause_deletion_threshold then s
  else
    let n := s.learned_clauses.length
    let key := fun i => (alookup s.clause_activity i).getD 0
    let sorted_clauses := sortDesc key (List.range n)
    let keep_count := max (n / 3) 50
    let to_keep := sorted_clauses.take keep_count
    let new_learned := to_keep.map (fun i => s.learned_clauses.getD i [])
    let new_activity := (to_keep.enum).map (fun p => (p.1, key p.2))
    { s with learned_clauses := new_learned, clause_activity := new_activity }

/-- The `while size & k == 0: k <<= 1` scan in `next_luby` (fuel-indexed). -/
def lowBitScan : Nat → Nat → Nat → Nat
  | 0, _, k => k
  | f + 1, size, k => if size &&& k == 0 then lowBitScan f size (k <<< 1) else k

/-- `next_luby`: append the next element of the solver's restart sequence.
When `size` is of the form `2^j - 1` the code appends the constant `1`;
otherwise it copies `luby_sequence[size - k]` for `k` the lowest set bit of
`size`. -/
def next_luby (seq : List Nat) : List Nat :=
  let size := seq.length
  if size &&& (size + 1) == 0 then seq ++ [1]
  else
    let k := lowBitScan (size + 1) size 1
    seq ++ [seq.getD (size - k) 0]

/-- The solver's restart sequence after `n` calls of `next_luby`, starting from
the initial `[1]`. -/
def lubyCodeSeq : Nat → List Nat
  | 0 => [1]
  | n + 1 => next_luby (lubyCodeSeq n)

/-- Fuel-indexed floor of the base-2 logarithm (`flog2 n n` computes
`⌊log₂ n⌋` for `n ≥ 1`); structurally recursive so that it evaluates by
kernel reduction. -/
def flog2 : Nat → Nat → Nat
  | 0, _ => 0
  | f + 1, n => if n ≥ 2 then flog2 f (n / 2) + 1 else 0

/-- Modelled from the spec (§4.6), for the refinement claim about `next_luby`:
the Luby sequence `t_k = 2^(i-1)` if `k = 2^i - 1`, else
`t_k = t_(k - 2^(i-1) + 1)` where `2^(i-1) ≤ k < 2^i - 1`.  The first case is
`k + 1 = 2^i` with `i = ⌊log₂ (k+1)⌋`, the second subtracts
`2^(i-1) = 2^⌊log₂ k⌋`.  Fuel-indexed; the fuel `k` always suffices because
the recursion strictly decreases `k`. -/
def lubySpecT : Nat → Nat → Nat
  | 0, _ => 0
  | _, 0 => 0
  | fuel + 1, k =>
    if 2 ^ (flog2 (k + 1) (k + 1)) = k + 1 then 2 ^ (flog2 (k + 1) (k + 1)) / 2
    else lubySpecT fuel (k - 2 ^ (flog2 k k) + 1)

/-- The spec's Luby value `t_k`. -/
def lubySpec (k : Nat) : Nat := lubySpecT k k

/-- `should_restart`: conflicts since the last restart reached
`luby_base * luby_sequence[-1]`. -/
def should_restart (s : CDCLSolver) : Bool :=
  decide (s.conflicts ≥ s.luby_base * ((s.luby_sequence.getLast?).getD 0))

/-- True/false value of a literal under an assigned Boolean, i.e. the Python
test `(lit > 0 and val) or (lit < 0 and not val)`. -/
def litTrueVal (l : Int) (v : Bool) : Bool :=
  (decide (l > 0) && v) || (decide (l < 0) && !v)

/-- Classification of a clause computed by the scan at the top of
`unit_propagate`: satisfied / conflicting / unit / pending. -/
inductive ClauseStatus where
  | satisfied
  | conflicting
  | unitOn (l : Int)
  | pending
  deriving Repr, DecidableEq

/-- The per-clause literal scan of `unit_propagate` (lines 164-181):
break on the first true literal, otherwise collect unassigned literals; at
the end `[]` unassigned means conflict, a single one means unit. -/
def classifyGo (assign : List (Nat × Bool)) : List Int → List Int → ClauseStatus
  | [], unassigned =>
    match unassigned with
    | [] => .conflicting
    | [l] => .unitOn l
    | _ => .pending
  | l :: rest, unassigned =>
    match alookup assign l.natAbs with
    | some v => if litTrueVal l v then .satisfied else classifyGo assign rest unassigned
    | none => classifyGo assign rest (unassigned ++ [l])

/-- Classify one clause under the current assignment. -/
def classifyClause (assign : List (Nat × Bool)) (c : Clause) : ClauseStatus :=
  classifyGo assign c []

/-- The state updates performed by `unit_propagate` when a conflicting clause
is found (lines 187-204): count the conflict, bump every variable of the
clause, bump the clause's activity when it is a learned clause, then decay. -/
def conflictUpdates (s : CDCLSolver) (c : Clause) (clause_idx total : Nat) : CDCLSolver :=
  let s1 := { s with conflicts := s.conflicts + 1 }
  let s2 := c.foldl (fun s l => bump_variable_activity s l.natAbs) s1
  let s3 := if clause_idx + s2.learned_clauses.length ≥ total then
              bump_clause_activity s2 (clause_idx + s2.learned_clauses.length - total)
            else s2
  decay_clause_activity (decay_variable_activity s3)

/-- The state updates of the unit branch of `unit_propagate` (lines 207-223). -/
def assignUnit (s : CDCLSolver) (c : Clause) (l : Int) : CDCLSolver :=
  let var := l.natAbs
  let value := decide (l > 0)
  let s1 := { s with assignment := aset s.assignment var value,
                     saved_phases := aset s.saved_phases var value }
  let s2 := { s1 with level := aset s1.level var s1.decision_level,
                      antecedent := aset s1.antecedent var c,
                      trail := s1.trail ++ [var] }
  bump_variable_activity s2 var

/-- One sweep of the `for clause in clauses` loop of `unit_propagate`. -/
inductive SweepResult where
  | conflict (c : Clause) (s : CDCLSolver)
  | progress (s : CDCLSolver)
  | fixpoint (s : CDCLSolver)

/-- Sweep the clauses in order: skip satisfied and pending clauses, return the
first conflict, or assign the first unit literal and break. -/
def sweepGo (s : CDCLSolver) (total : Nat) : List Clause → Nat → SweepResult
  | [], _ => .fixpoint s
  | c :: rest, idx =>
    match classifyClause s.assignment c with
    | .satisfied => sweepGo s total rest (idx + 1)
    | .pending => sweepGo s total rest (idx + 1)
    | .conflicting => .conflict c (conflictUpdates s c idx total)
    | .unitOn l => .progress (assignUnit s c l)

/-- Result of `unit_propagate`: a conflict clause, no conflict (fixed point),
or fuel exhaustion (an artifact of the embedding; the Python `while` loop
always terminates because each round assigns a fresh variable). -/
inductive PropResult where
  | conflictR (c : Clause) (s : CDCLSolver)
  | noConflict (s : CDCLSolver)
  | fuelout (s : CDCLSolver)

/-- The solver state carried by a `PropResult`. -/
def PropResult.state : PropResult → CDCLSolver
  | .conflictR _ s => s
  | .noConflict s => s
  | .fuelout s => s

/-- Tester for stating concrete propagation runs. -/
def PropResult.isConflictOn : PropResult → Clause → Bool
  | .conflictR c2 _, c => c2 == c
  | _, _ => false

/-- `unit_propagate` (lines 154-225): sweep until a conflict or a fixed point. -/
def unit_propagate : Nat → List Clause → CDCLSolver → PropResult
  | 0, _, s => .fuelout s
  | fuel + 1, clauses, s =>
    match sweepGo s clauses.length clauses 0 with
    | .conflict c s1 => .conflictR c s1
    | .progress s1 => unit_propagate fuel clauses s1
    | .fixpoint s1 => .noConflict s1

/-- `make_decision` (lines 418-437): pick the first unassigned variable of
maximal activity (Python `max` keeps the first maximum), assign its saved
phase (default `True`) at a new decision level. -/
def make_decision (s : CDCLSolver) : Bool × CDCLSolver :=
  let unassigned := ((List.range s.max_var).map (· + 1)).filter
    (fun v => (alookup s.assignment v).isNone)
  match unassigned with
  | [] => (false, s)
  | v0 :: vs =>
    let best := vs.foldl
      (fun b v =>
        if (alookup s.activity v).getD 0 > (alookup s.activity b).getD 0 then v else b) v0
    let phase := (alookup s.saved_phases best).getD true
    (true, { s with assignment := aset s.assignment best phase,
                    level := aset s.level best (s.decision_level + 1),
                    trail := s.trail ++ [best],
                    decision_level := s.decision_level + 1 })

/-- The `while self.trail and self.level[self.trail[-1]] > level` pop loop of
`backtrack`, acting on the reversed trail (so the list head is the newest
trail entry). -/
def btPop (lvl : Nat) :
    List Nat → List (Nat × Bool) → List (Nat × Nat) → List (Nat × Clause) →
    List Nat × List (Nat × Bool) × List (Nat × Nat) × List (Nat × Clause)
  | [], a, l, ant => ([], a, l, ant)
  | v :: rest, a, l, ant =>
    if (alookup l v).getD 0 > lvl then
      btPop lvl rest (aerase a v) (aerase l v) (aerase ant v)
    else (v :: rest, a, l, ant)

/-- `backtrack` (lines 404-416): save phases of all assigned variables, pop
trail entries above `lvl`, set `decision_level := lvl`. -/
def backtrack (s : CDCLSolver) (lvl : Nat) : CDCLSolver :=
  let sp := s.assignment.foldl (fun m p => aset m p.1 p.2) s.saved_phases
  let r := btPop lvl s.trail.reverse s.assignment s.level s.antecedent
  { s with saved_phases := sp,
           trail := r.1.reverse,
           assignment := r.2.1,
           level := r.2.2.1,
           antecedent := r.2.2.2,
           decision_level := lvl }

/-- `perform_restart` (lines 147-152). -/
def perform_restart (s : CDCLSolver) : CDCLSolver :=
  let s1 := backtrack s 0
  let s2 := { s1 with restarts := s1.restarts + 1 }
  let s3 := { s2 with luby_sequence := next_luby s2.luby_sequence }
  { s3 with conflicts := 0 }

/-- The "most recently assigned" scan of `analyze_conflict` (lines 260-273 and
again 320-332).  Python computes `self.trail[::-1].index(var)` — the position
of the variable in the REVERSED trail — and keeps the literal with the largest
such position (hence it actually selects the variable assigned EARLIEST,
keeping the first literal on ties; literals whose variable is not on the trail
are skipped, as the `ValueError` is caught). -/
def findRecent (trail : List Nat) (lits : List Int) : Option Int :=
  (lits.foldl
    (fun acc lit =>
      match (trail.reverse).findIdx? (fun v => v == lit.natAbs) with
      | some pos => if (pos : Int) > acc.1 then ((pos : Int), some lit) else acc
      | none => acc)
    ((-1 : Int), (none : Option Int))).2

/-- Initial processing of the conflict clause (lines 238-244): mark assigned
variables seen; collect and bump those at the current decision level.
`learned` itself starts as a copy of the whole conflict clause and is not
touched here. -/
def initialScan (s : CDCLSolver) (conflict : Clause) :
    List Nat × List Int × CDCLSolver :=
  conflict.foldl
    (fun acc lit =>
      let seen := acc.1
      let current := acc.2.1
      let s := acc.2.2
      let var := lit.natAbs
      if (alookup s.assignment var).isSome then
        if (alookup s.level var).getD 0 = s.decision_level then
          (var :: seen, current ++ [lit], bump_variable_activity s var)
        else (var :: seen, current, s)
      else acc)
    (([] : List Nat), ([] : List Int), s)

/-- Resolution with the antecedent clause of the selected variable
(lines 292-308): each new variable is marked seen and bumped; its literal goes
to `current` when at the current decision level, to `learned` when at a
positive lower level.  (Python reads `self.level[ant_var]` directly; an
unassigned variable would raise `KeyError` there — the total model reads
level 0, on which neither branch fires.) -/
def resolveWithAntecedent (dl : Nat) (var : Nat) (ante : Clause)
    (st : List Int × List Nat × List Int × CDCLSolver) :
    List Int × List Nat × List Int × CDCLSolver :=
  ante.foldl
    (fun acc antLit =>
      let learned := acc.1
      let seen := acc.2.1
      let current := acc.2.2.1
      let s := acc.2.2.2
      let antVar := antLit.natAbs
      if antVar ≠ var ∧ ¬ (antVar ∈ seen) then
        let s := bump_variable_activity s antVar
        if (alookup s.level antVar).getD 0 = dl then
          (learned, antVar :: seen, current ++ [antLit], s)
        else if (alookup s.level antVar).getD 0 > 0 then
          (learned ++ [antLit], antVar :: seen, current, s)
        else (learned, antVar :: seen, current, s)
      else acc)
    st

/-- One iteration of the First-UIP resolution loop (lines 253-314), for
`current.length > 1`: select the literal reported by `findRecent` (falling
back to the last element), remove it from `current`, and resolve with its
antecedent if it has one. -/
def resolveOnce (st : List Int × List Nat × List Int × CDCLSolver) :
    List Int × List Nat × List Int × CDCLSolver :=
  let learned := st.1
  let seen := st.2.1
  let current := st.2.2.1
  let s := st.2.2.2
  let lit := match findRecent s.trail current with
             | some l => l
             | none => current.getLastD 0
  let current := current.erase lit
  let var := lit.natAbs
  match alookup s.antecedent var with
  | some ante => resolveWithAntecedent s.decision_level var ante (learned, seen, current, s)
  | none => (learned, seen, current, s)

/-- The resolution loop, bounded by `max_iterations = 20` exactly as in the
code; it stops early as soon as `current` has at most one literal. -/
def resolutionLoop : Nat → (List Int × List Nat × List Int × CDCLSolver) →
    List Int × List Nat × List Int × CDCLSolver
  | 0, st => st
  | n + 1, st => if st.2.2.1.length > 1 then resolutionLoop n (resolveOnce st) else st

/-- The `iteration >= max_iterations` simplification (lines 317-336): if the
cap was hit with several current-level literals left, keep only the one
reported by the recency scan (when it finds one). -/
def capSimplify (trail : List Nat) (current : List Int) : List Int :=
  if current.length > 1 then
    match findRecent trail current with
    | some r => [r]
    | none => current
  else current

/-- `minimize_clause` (lines 395-402): the Python body appends every literal
unchanged, so it is the identity, written as the same fold. -/
def minimize_clause (c : Clause) : Clause :=
  c.foldl (fun acc l => acc ++ [l]) []

/-- The backtrack-level fold of `analyze_conflict` (lines 352-370), tracking
`(back_level, second_highest)` over the literals of `learned`.
(The `level_counts` dictionary of the source only feeds the debug print and is
omitted.) -/
def backLevelGo (s : CDCLSolver) : List Int → Nat → Nat → Nat
  | [], back, _ => back
  | l :: rest, back, second =>
    match alookup s.level l.natAbs with
    | none => backLevelGo s rest back second
    | some k =>
      if k > second ∧ k < s.decision_level then
        if k > back then backLevelGo s rest k back
        else backLevelGo s rest back k
      else backLevelGo s rest back second

/-- The final filter of `analyze_conflict` (lines 377-381): keep a literal when
its variable has no level, or its level is at most `back_level`, or its level
equals the current decision level. -/
def finalFilter (s : CDCLSolver) (back : Nat) (learned : List Int) : List Int :=
  learned.filter
    (fun l =>
      match alookup s.level l.natAbs with
      | none => true
      | some k => decide (k ≤ back) || decide (k = s.decision_level))

/-- The solver state after the resolution phase of `analyze_conflict`
(initial scan, bounded resolution, activity decay at line 346, and the
learned-clause cleaning of lines 349-350). -/
def analyzeState (s0 : CDCLSolver) (conflict : Clause) : CDCLSolver :=
  let i := initialScan s0 conflict
  let st := resolutionLoop 20 (conflict, i.1, i.2.1, i.2.2)
  let s2 := decay_variable_activity st.2.2.2
  if s2.learned_clauses.length ≥ s2.clause_deletion_threshold then
    clean_learned_clauses s2
  else s2

/-- The `learned` list of `analyze_conflict` before the backtrack-level
computation: the resolution result (seeded with the whole conflict clause),
the iteration-cap simplification, and the appended remaining current-level
literal (line 343). -/
def analyzeLearnedPre (s0 : CDCLSolver) (conflict : Clause) : List Int :=
  let i := initialScan s0 conflict
  let st := resolutionLoop 20 (conflict, i.1, i.2.1, i.2.2)
  let current := capSimplify st.2.2.2.trail st.2.2.1
  st.1 ++ (match current.head? with
           | some l => [l]
           | none => [])

/-- `analyze_conflict` (lines 227-393), with `debug=False`: returns
`(back_level, final_learned)` together with the mutated solver state.
Python's `list(set(final_learned))` deduplication is modelled by
`List.dedup` (the set iteration order is unspecified in Python; every claim
below only depends on the underlying set of literals). -/
def analyze_conflict (s0 : CDCLSolver) (conflict : Clause) :
    Nat × Clause × CDCLSolver :=
  let s3 := analyzeState s0 conflict
  let learned := analyzeLearnedPre s0 conflict
  let back := backLevelGo s3 learned 0 0
  let final0 := (finalFilter s3 back learned).dedup
  let final := if final0.length > 20 then minimize_clause final0 else final0
  (back, final, s3)

/-- The SAT check of the driver (lines 182-189 of `tester.py`): every original
clause has a literal true under the assignment, with Python's
`assignment.get(var, False)` / `assignment.get(var, True)` defaults. -/
def checkAllSat (clauses : List Clause) (s : CDCLSolver) : Bool :=
  clauses.all (fun c => c.any (fun l =>
    (decide (l > 0) && ((alookup s.assignment l.natAbs).getD false)) ||
    (decide (l < 0) && !((alookup s.assignment l.natAbs).getD true))))

/-- Outcome of `SATSolver.solve`.  The Python function returns a bare `bool`;
the embedding keeps the final solver state and distinguishes the exit paths:
`sat` (line 191, returns True), `unsat` (lines 130, 167 and 196, return
False), `timeout` (line 202, the deadline path, returns False), and `stuck`
(fuel exhaustion of the inner propagation loop — an embedding artifact with no
Python counterpart). -/
inductive SolveResult where
  | sat (s : CDCLSolver)
  | unsat (s : CDCLSolver)
  | timeout (s : CDCLSolver)
  | stuck (s : CDCLSolver)

/-- The `bool` actually returned to the Python caller for each exit path. -/
def pythonReturn : SolveResult → Bool
  | .sat _ => true
  | _ => false

/-- Outcome testers and the final solver state, for stating concrete runs. -/
def SolveResult.isSat : SolveResult → Bool
  | .sat _ => true
  | _ => false

def SolveResult.isUnsat : SolveResult → Bool
  | .unsat _ => true
  | _ => false

def SolveResult.isTimeout : SolveResult → Bool
  | .timeout _ => true
  | _ => false

def SolveResult.state : SolveResult → CDCLSolver
  | .sat s => s
  | .unsat s => s
  | .timeout s => s
  | .stuck s => s

/-- The main CDCL loop of `SATSolver.solve` (lines 142-202); `fuel` counts the
remaining iterations the deadline allows, so `fuel = 0` is the timeout path.
Note Python's `if conflict:` is FALSE for an empty conflict clause (an empty
list is falsy), which the embedding reproduces. -/
def solveLoop (clauses : List Clause) (pfuel : Nat) : Nat → CDCLSolver → SolveResult
  | 0, s => .timeout s
  | fuel + 1, s =>
    let s := if should_restart s then perform_restart s else s
    let allClauses := clauses ++ s.learned_clauses
    match unit_propagate pfuel allClauses s with
    | .fuelout s1 => .stuck s1
    | .conflictR c s1 =>
      if c.isEmpty then
        if checkAllSat clauses s1 then .sat s1
        else match make_decision s1 with
             | (false, s2) => .unsat s2
             | (true, s2) => solveLoop clauses pfuel fuel s2
      else
        if s1.decision_level = 0 then .unsat s1
        else
          let r := analyze_conflict s1 c
          let s2 := backtrack r.2.2 r.1
          let s3 := { s2 with learned_clauses := s2.learned_clauses ++ [r.2.1] }
          let newAct := aset s3.clause_activity (s3.learned_clauses.length - 1) (1 : PyFloat)
          let s4 := { s3 with clause_activity := newAct }
          solveLoop clauses pfuel fuel s4
    | .noConflict s1 =>
      if checkAllSat clauses s1 then .sat s1
      else match make_decision s1 with
           | (false, s2) => .unsat s2
           | (true, s2) => solveLoop clauses pfuel fuel s2

/-- `SATSolver.solve` (lines 104-202): set `max_var`, initialise activities,
return UNSAT on an empty input clause, then run the main loop. -/
def solve (clauses : List Clause) (fuel pfuel : Nat) : SolveResult :=
  let maxv := clauses.foldl (fun m c => c.foldl (fun m l => max m l.natAbs) m) 0
  let s := { CDCLSolver.mkInit with max_var := maxv }
  let s := init_activity s
  if clauses.any (fun c => c.isEmpty) then .unsat s
  else solveLoop clauses pfuel fuel s

/-- A line of text as a list of characters: Lean's `String` primitives are
byte-index based and do not reduce in the kernel, and a Python `str` is a
sequence of characters. -/
abbrev Line := List Char

/-- Python `str.strip()`: drop leading and trailing whitespace. -/
def pyStrip (cs : Line) : Line :=
  ((cs.dropWhile Char.isWhitespace).reverse.dropWhile Char.isWhitespace).reverse

/-- Python `str.startswith(pre)`. -/
def pyStartsWith (cs pre : Line) : Bool := pre.isPrefixOf cs

/-- Worker for Python `str.split()`: split on runs of whitespace, no empty
pieces; `acc` holds the current token reversed. -/
def pySplitGo : Line → Line → List Line
  | [], acc => if acc.isEmpty then [] else [acc.reverse]
  | c :: rest, acc =>
    if c.isWhitespace then
      if acc.isEmpty then pySplitGo rest [] else acc.reverse :: pySplitGo rest []
    else pySplitGo rest (c :: acc)

/-- Python `str.split()` with no argument. -/
def pySplit (cs : Line) : List Line := pySplitGo cs []

/-- Digit-string value; `none` on an empty or non-digit string. -/
def digitsToNat? (cs : List Char) : Option Nat :=
  if cs.isEmpty then none
  else cs.foldl
    (fun acc c =>
      match acc with
      | none => none
      | some n => if c.isDigit then some (n * 10 + (c.toNat - ('0').toNat)) else none)
    (some 0)

/-- Python `int(token)` on a whitespace-free token: optional sign followed by
decimal digits; `none` models the `ValueError`.  (Python additionally accepts
underscore digit separators and non-ASCII digits; no DIMACS token in the
repository uses those.) -/
def pyInt? : Line → Option Int
  | '-' :: rest => (digitsToNat? rest).map (fun n => -(n : Int))
  | '+' :: rest => (digitsToNat? rest).map (fun n => (n : Int))
  | cs => (digitsToNat? cs).map (fun n => (n : Int))

/-- Strip a trailing `"0"` token (lines 88-90 of `tester.py`). -/
def stripTrailingZero (parts : List Line) : List Line :=
  if parts ≠ [] ∧ (parts.getLast?).getD [] = ['0'] then parts.dropLast
  else parts

/-- One line of `SATSolver.parse_cnf_file` (lines 75-98), folded over the
accumulated clauses and variable count.  `Except` models the exception that
escapes the function: the only uncaught `ValueError` is the `int(n_vars)` of a
malformed problem line; a clause line that fails to parse is silently skipped
by the inner `try`. -/
def parseGo : List Line → List Clause → Int → Except Unit (List Clause × Int)
  | [], cls, nv => .ok (cls, nv)
  | line :: rest, cls, nv =>
    let l := pyStrip line
    if pyStartsWith l ['p', ' ', 'c', 'n', 'f'] then
      let parts := pySplit l
      if parts.length ≥ 4 then
        match pyInt? (parts.getD 2 []) with
        | some n => parseGo rest cls n
        | none => .error ()
      else parseGo rest cls nv
    else if (!pyStartsWith l ['c']) && (!l.isEmpty) then
      match (stripTrailingZero (pySplit l)).mapM pyInt? with
      | some clause => if clause ≠ [] then parseGo rest (cls ++ [clause]) nv
                       else parseGo rest cls nv
      | none => parseGo rest cls nv
    else parseGo rest cls nv

/-- `SATSolver.parse_cnf_file` on the list of lines of the file. -/
def parse_cnf_file (lines : List Line) : Except Unit (List Clause × Int) :=
  parseGo lines [] 0

/-- A solver state reached by `solve` on `[[1,2],[-2,3],[-2,4],[-3,-4]]` at its
first conflict (decision `1 ↦ false` at level 1, then unit propagation of
`2, 3, 4`, conflict clause `[-3,-4]`); activity scores are irrelevant to
conflict analysis and set to zero. -/
def conflictState0 : CDCLSolver :=
  { CDCLSolver.mkInit with
      assignment := [(1, false), (2, true), (3, true), (4, true)]
      level := [(1, 1), (2, 1), (3, 1), (4, 1)]
      antecedent := [(2, [1, 2]), (3, [-2, 3]), (4, [-2, 4])]
      trail := [1, 2, 3, 4]
      decision_level := 1
      max_var := 4
      activity := [(1, 0), (2, 0), (3, 0), (4, 0)]
      saved_phases := [(1, false), (2, true), (3, true), (4, true)] }

/-- A literal is true under the (partial) assignment: a positive literal whose
variable is assigned `true`, or a negative literal whose variable is assigned
`false`. -/
def litTrue (assign : List (Nat × Bool)) (l : Int) : Prop :=
  (l > 0 ∧ alookup assign l.natAbs = some true) ∨
  (l < 0 ∧ alookup assign l.natAbs = some false)

/-- A literal is false under the assignment: its variable is assigned a value
that does not satisfy it. -/
def litFalse (assign : List (Nat × Bool)) (l : Int) : Prop :=
  ∃ b, alookup assign l.natAbs = some b ∧ litTrueVal l b = false

/-- A clause literal is unassigned. -/
def litUnassigned (assign : List (Nat × Bool)) (l : Int) : Bool :=
  (alookup assign l.natAbs).isNone

/-- The mutual-domain invariant of the solver state: trail variables,
`assignment` keys and `level` keys coincide, `antecedent` keys are among them,
no variable is on the trail twice, and the dict representations have distinct
keys. -/
def WF (s : CDCLSolver) : Prop :=
  s.trail.Nodup ∧
  (∀ v, v ∈ s.trail ↔ (alookup s.assignment v).isSome = true) ∧
  (∀ v, v ∈ s.trail ↔ (alookup s.level v).isSome = true) ∧
  (∀ v, (alookup s.antecedent v).isSome = true → v ∈ s.trail) ∧
  akeysNodup s.assignment ∧ akeysNodup s.level ∧ akeysNodup s.antecedent

/-- Trail entries appear in nondecreasing decision-level order. -/
def TrailLevelsSorted (s : CDCLSolver) : Prop :=
  s.trail.Pairwise (fun x y => (alookup s.level x).getD 0 ≤ (alookup s.level y).getD 0)

/-- A clause line whose tokens fail Python `int()` (after stripping the
trailing `0`): the line is neither a problem line, nor a comment, nor blank,
and the inner `try` of `parse_cnf_file` hits a `ValueError`. -/
def MalformedClauseLine (line : Line) : Prop :=
  pyStartsWith (pyStrip line) ['p', ' ', 'c', 'n', 'f'] = false ∧
  pyStartsWith (pyStrip line) ['c'] = false ∧
  (pyStrip line).isEmpty = false ∧
  (stripTrailingZero (pySplit (pyStrip line))).mapM pyInt? = none

/-! ## Theorems -/

theorem alookup_aset_self {α : Type} (m : List (Nat × α)) (k : Nat) (v : α) :
    alookup (aset m k v) k = some v := by
  induction m with
  | nil => simp [aset, alookup]
  | cons p rest ih =>
    by_cases h : p.1 = k
    · simp [aset, h, alookup]
    · simp only [aset, if_neg h, alookup]
      exact ih

theorem alookup_aset_ne {α : Type} (m : List (Nat × α)) (k w : Nat) (v : α)
    (h : w ≠ k) : alookup (aset m k v) w = alookup m w := by
  have hkw : ¬ (k = w) := fun hh => h hh.symm
  induction m with
  | nil => simp only [aset, alookup]; rw [if_neg hkw]
  | cons p rest ih =>
    by_cases hp : p.1 = k
    · simp only [aset, if_pos hp, alookup]
      rw [if_neg hkw, if_neg (hp ▸ hkw)]
    · simp only [aset, if_neg hp, alookup]
      by_cases hw : p.1 = w
      · rw [if_pos hw, if_pos hw]
      · rw [if_neg hw, if_neg hw, ih]

theorem alookup_aerase_ne {α : Type} (m : List (Nat × α)) (k w : Nat)
    (h : w ≠ k) : alookup (aerase m k) w = alookup m w := by
  induction m with
  | nil => simp [aerase]
  | cons p rest ih =>
    by_cases hp : p.1 = k
    · simp only [aerase, if_pos hp, alookup]
      rw [if_neg (fun hw : p.1 = w => h (hp ▸ hw ▸ rfl))]
    · simp only [aerase, if_neg hp, alookup]
      by_cases hw : p.1 = w
      · rw [if_pos hw, if_pos hw]
      · rw [if_neg hw, if_neg hw, ih]

theorem alookup_isSome_iff {α : Type} (m : List (Nat × α)) (k : Nat) :
    (alookup m k).isSome = true ↔ k ∈ m.map Prod.fst := by
  induction m with
  | nil => simp [alookup]
  | cons p rest ih =>
    by_cases hp : p.1 = k
    · simp [alookup, hp]
    · simp only [alookup, if_neg hp, List.map_cons, List.mem_cons, ih]
      constructor
      · intro hh; exact Or.inr hh
      · intro hh
        rcases hh with hh | hh
        · exact absurd hh.symm hp
        · exact hh

theorem alookup_none_iff {α : Type} (m : List (Nat × α)) (k : Nat) :
    alookup m k = none ↔ k ∉ m.map Prod.fst := by
  rw [← alookup_isSome_iff]
  cases alookup m k <;> simp

theorem alookup_aerase_self {α : Type} (m : List (Nat × α)) (k : Nat)
    (h : akeysNodup m) : alookup (aerase m k) k = none := by
  induction m with
  | nil => simp [aerase, alookup]
  | cons p rest ih =>
    rw [akeysNodup, List.map_cons, List.nodup_cons] at h
    rcases h with ⟨hnotin, hrest⟩
    by_cases hp : p.1 = k
    · simp only [aerase, if_pos hp]
      rw [alookup_none_iff]
      intro hmem
      exact hnotin (hp ▸ hmem)
    · simp only [aerase, if_neg hp, alookup, if_neg hp]
      exact ih hrest

theorem mem_keys_aset {α : Type} (m : List (Nat × α)) (k w : Nat) (v : α) :
    w ∈ (aset m k v).map Prod.fst ↔ w = k ∨ w ∈ m.map Prod.fst := by
  induction m with
  | nil => simp [aset]
  | cons p rest ih =>
    by_cases hp : p.1 = k
    · subst hp
      simp [aset]
    · simp only [aset, if_neg hp, List.map_cons, List.mem_cons, ih]
      tauto

theorem akeysNodup_aset {α : Type} (m : List (Nat × α)) (k : Nat) (v : α)
    (h : akeysNodup m) : akeysNodup (aset m k v) := by
  induction m with
  | nil => simp [aset, akeysNodup]
  | cons p rest ih =>
    rw [akeysNodup, List.map_cons, List.nodup_cons] at h
    rcases h with ⟨hnotin, hrest⟩
    by_cases hp : p.1 = k
    · subst hp
      rw [akeysNodup, aset, if_pos rfl, List.map_cons, List.nodup_cons]
      exact ⟨hnotin, hrest⟩
    · rw [akeysNodup, aset, if_neg hp, List.map_cons, List.nodup_cons]
      constructor
      · intro hmem
        rcases (mem_keys_aset rest k p.1 v).1 hmem with h1 | h1
        · exact hp h1
        · exact hnotin h1
      · exact ih hrest

theorem keys_aerase_subset {α : Type} (m : List (Nat × α)) (k : Nat) :
    (aerase m k).map Prod.fst ⊆ m.map Prod.fst := by
  induction m with
  | nil => simp [aerase]
  | cons p rest ih =>
    by_cases hp : p.1 = k
    · simp only [aerase, if_pos hp, List.map_cons]
      exact fun x hx => List.mem_cons_of_mem _ hx
    · simp only [aerase, if_neg hp, List.map_cons]
      intro x hx
      rcases List.mem_cons.1 hx with h1 | h1
      · exact List.mem_cons.2 (Or.inl h1)
      · exact List.mem_cons_of_mem _ (ih h1)

theorem akeysNodup_aerase {α : Type} (m : List (Nat × α)) (k : Nat)
    (h : akeysNodup m) : akeysNodup (aerase m k) := by
  induction m with
  | nil => simp [aerase, akeysNodup]
  | cons p rest ih =>
    rw [akeysNodup, List.map_cons, List.nodup_cons] at h
    rcases h with ⟨hnotin, hrest⟩
    by_cases hp : p.1 = k
    · simp only [aerase, if_pos hp]
      exact hrest
    · rw [akeysNodup, aerase, if_neg hp, List.map_cons, List.nodup_cons]
      exact ⟨fun hx => hnotin (keys_aerase_subset rest k hx), ih hrest⟩

set_option maxRecDepth 100000

/-- C7: the bit-manipulation `next_luby` does not compute the spec's Luby
sequence: the 3rd value it appends is `1` (the code in fact appends `1`
forever, since both branches only ever copy earlier entries of the all-ones
sequence), while the Luby term `t_3` of the spec's recursion is `2`. -/
theorem luby_C7_code_vs_spec :
    lubyCodeSeq 3 = [1, 1, 1, 1] ∧ lubySpec 3 = 2 ∧
    (lubyCodeSeq 3).getD 3 0 ≠ lubySpec 3 := by decide

/-- C3 counterexample: a timed-out solve (`solve [[1]]` with an expired
deadline) and a proven-UNSAT solve (`solve [[1],[-1]]`) return the same value
`False` to the Python caller — `return False  # Assume UNSAT if timeout
reached` — so the Timeout outcome is not distinct from UNSAT in the returned
value. -/
theorem timeout_C3_counterexample :
    (solve [[1], [-1]] 1 3).isUnsat = true ∧ (solve [[1]] 0 3).isTimeout = true ∧
    pythonReturn (solve [[1], [-1]] 1 3) = pythonReturn (solve [[1]] 0 3) := by
  decide

/-- C3 amended: when the deadline expires `solve` exits through the timeout
path and returns `False`, exactly the value returned for UNSAT; the caller
cannot distinguish a timed-out solve from a proven-unsatisfiable one by the
returned value (the distinction only appears on stdout). -/
theorem timeout_C3_amended (clauses : List Clause) (pfuel : Nat)
    (s t u : CDCLSolver) :
    solveLoop clauses pfuel 0 s = .timeout s ∧
    pythonReturn (.timeout t) = false ∧ pythonReturn (.unsat u) = false :=
  ⟨rfl, rfl, rfl⟩

/-- C2: `analyze_conflict` does not return a clause with exactly one literal
at the current decision level.  `conflictState0` is the state `solve` reaches
on `[[1,2],[-2,3],[-2,4],[-3,-4]]` at its first conflict (decision level 1,
conflict clause `[-3,-4]`); the learned clause it returns is `[-3,-4]`, BOTH
of whose literals are assigned at decision level 1, because the code
initialises `learned = list(conflict_clause)` and never removes the
current-level literals of the conflict clause from it. -/
theorem analyze_C2_not_one_uip :
    conflictState0.decision_level = 1 ∧
    (analyze_conflict conflictState0 [-3, -4]).2.1 = [-3, -4] ∧
    (((analyze_conflict conflictState0 [-3, -4]).2.1).filter
      (fun l => (alookup conflictState0.level l.natAbs).getD 0 ==
                conflictState0.decision_level)).length = 2 := by
  decide

/-- C5 counterexample: on the same reachable conflict state, whichever literal
of the returned clause is taken as the UIP, some other literal of the clause
is assigned at level 1, so the claimed backjump level (max level among
non-UIP literals) is 1 — but `analyze_conflict` returns backjump level 0. -/
theorem backjump_C5_counterexample :
    (analyze_conflict conflictState0 [-3, -4]).1 = 0 ∧
    (∀ uip ∈ (analyze_conflict conflictState0 [-3, -4]).2.1,
      ∃ l ∈ (analyze_conflict conflictState0 [-3, -4]).2.1,
        l ≠ uip ∧ alookup conflictState0.level l.natAbs = some 1) ∧
    (0 : Nat) ≠ 1 := by
  decide


/-- Helper: a malformed clause line is skipped by the parser fold, leaving the
accumulated state untouched. -/
theorem parseGo_skip_malformed (bad : Line) (hb : MalformedClauseLine bad) :
    ∀ (pre post : List Line) (acc : List Clause) (nv : Int),
      parseGo (pre ++ bad :: post) acc nv = parseGo (pre ++ post) acc nv := by
  obtain ⟨h1, h2, h3, h4⟩ := hb
  intro pre
  induction pre with
  | nil =>
    intro post acc nv
    simp only [List.nil_append, parseGo, h1, h2, h3, h4]
    simp
  | cons hd tl ih =>
    intro post acc nv
    simp only [List.cons_append, parseGo]
    split
    · split
      · split
        · exact ih post acc _
        · rfl
      · exact ih post acc nv
    · split
      · split
        · split
          · exact ih post _ nv
          · exact ih post acc nv
        · exact ih post acc nv
      · exact ih post acc nv


/-- Helper: the parser fold never accumulates an empty clause. -/
theorem parseGo_no_empty :
    ∀ (lines : List Line) (acc : List Clause) (nv : Int) (cls : List Clause) (nv2 : Int),
      (∀ c ∈ acc, c ≠ []) → parseGo lines acc nv = .ok (cls, nv2) → ∀ c ∈ cls, c ≠ [] := by
  intro lines
  induction lines with
  | nil =>
    intro acc nv cls nv2 hacc h
    simp only [parseGo] at h
    cases h
    exact hacc
  | cons hd tl ih =>
    intro acc nv cls nv2 hacc h
    simp only [parseGo] at h
    split at h
    · split at h
      · split at h
        · exact ih acc _ cls nv2 hacc h
        · cases h
      · exact ih acc nv cls nv2 hacc h
    · split at h
      · split at h
        · rename_i clause hcl
          split at h
          · rename_i hne
            refine ih (acc ++ [clause]) nv cls nv2 ?_ h
            intro c hc
            rcases List.mem_append.1 hc with hc | hc
            · exact hacc c hc
            · simp at hc
              subst hc
              exact hne
          · exact ih acc nv cls nv2 hacc h
        · exact ih acc nv cls nv2 hacc h
      · exact ih acc nv cls nv2 hacc h


/-- C8 counterexample: a DIMACS file with a malformed clause line (`1 a 0`
contains the non-integer token `a`) parses WITHOUT error — the malformed line
is silently skipped (`except ValueError: continue`) and the remaining clauses
are returned, so the solver is subsequently invoked on them. -/
theorem parse_C8_counterexample :
    parse_cnf_file [['p',' ','c','n','f',' ','2',' ','2'], ['1',' ','a',' ','0'], ['2',' ','0']]
      = .ok ([[2]], 2) := rfl

/-- C8 amended: a malformed clause line (non-integer token) is NOT surfaced to
the caller: `parse_cnf_file` silently skips it, returning exactly what it
returns for the same file without that line, and the solver is then invoked on
the remaining clauses.  (Only the `int(n_vars)` of a malformed problem line
can escape as an exception.) -/
theorem parse_C8_amended (pre post : List Line) (bad : Line)
    (hb : MalformedClauseLine bad) :
    parse_cnf_file (pre ++ bad :: post) = parse_cnf_file (pre ++ post) :=
  parseGo_skip_malformed bad hb pre post [] 0

/-- Witness for the amended C8 at a concrete file. -/
theorem parse_C8_witness :
    MalformedClauseLine ['1', ' ', 'a', ' ', '0'] ∧
    parse_cnf_file ([['p',' ','c','n','f',' ','2',' ','2']] ++ ['1',' ','a',' ','0'] :: [['2',' ','0']])
      = parse_cnf_file ([['p',' ','c','n','f',' ','2',' ','2']] ++ [['2',' ','0']]) := by
  constructor
  · unfold MalformedClauseLine
    decide
  · exact parse_C8_amended [['p',' ','c','n','f',' ','2',' ','2']] [['2',' ','0']]
      ['1',' ','a',' ','0'] (by unfold MalformedClauseLine; decide)

/-- C10: `parse_cnf_file` never returns an empty clause (a bare `0` line is
dropped by the `if clause:` guard), so the empty-clause UNSAT check of
`SATSolver.solve` can never fire on parsed input. -/
theorem parse_C10_no_empty (lines : List Line) (cls : List Clause) (nv : Int)
    (h : parse_cnf_file lines = .ok (cls, nv)) :
    (∀ c ∈ cls, c ≠ []) ∧ cls.any (fun c => c.isEmpty) = false := by
  have h1 : ∀ c ∈ cls, c ≠ [] := parseGo_no_empty lines [] 0 cls nv (by simp) h
  refine ⟨h1, ?_⟩
  rw [List.any_eq_false]
  intro c hc
  have := h1 c hc
  cases c
  · exact absurd rfl this
  · simp

/-- Witness for C10 at a concrete file containing a bare `0` clause line. -/
theorem parse_C10_witness :
    parse_cnf_file [['p',' ','c','n','f',' ','1',' ','2'], ['0'], ['1',' ','0']]
      = .ok ([[1]], 1) ∧
    ((∀ c ∈ ([[1]] : List Clause), c ≠ []) ∧
      ([[1]] : List Clause).any (fun c => c.isEmpty) = false) :=
  ⟨rfl, parse_C10_no_empty [['p',' ','c','n','f',' ','1',' ','2'], ['0'], ['1',' ','0']]
     [[1]] 1 rfl⟩

/-- Helper: the Boolean driver check implies the semantic satisfaction of
every clause (the `.get` defaults cannot fabricate a satisfied literal). -/
theorem checkAllSat_sound (clauses : List Clause) (s : CDCLSolver)
    (h : checkAllSat clauses s = true) :
    ∀ c ∈ clauses, ∃ l ∈ c, litTrue s.assignment l := by
  intro c hc
  have hall := (List.all_eq_true).1 h c hc
  rcases (List.any_eq_true).1 hall with ⟨l, hl, hsat⟩
  refine ⟨l, hl, ?_⟩
  rcases Bool.or_eq_true_iff.1 hsat with hpos | hneg
  · rcases Bool.and_eq_true_iff.1 hpos with ⟨h1, h2⟩
    left
    refine ⟨of_decide_eq_true h1, ?_⟩
    cases hlk : alookup s.assignment l.natAbs with
    | none => rw [hlk] at h2; simp at h2
    | some b => rw [hlk] at h2; simp at h2; rw [h2]
  · rcases Bool.and_eq_true_iff.1 hneg with ⟨h1, h2⟩
    right
    refine ⟨of_decide_eq_true h1, ?_⟩
    cases hlk : alookup s.assignment l.natAbs with
    | none => rw [hlk] at h2; simp at h2
    | some b => rw [hlk] at h2; simp at h2; rw [h2]

/-- Helper: the only `.sat` exit of the driver loop is the one guarded by
`checkAllSat`. -/
theorem solveLoop_sat (clauses : List Clause) (pfuel : Nat) :
    ∀ (fuel : Nat) (s m : CDCLSolver),
      solveLoop clauses pfuel fuel s = .sat m → checkAllSat clauses m = true := by
  intro fuel
  induction fuel with
  | zero => intro s m h; simp [solveLoop] at h
  | succ n ih =>
    intro s m h
    simp only [solveLoop] at h
    split at h
    · cases h
    · split at h
      · split at h
        · cases h
          assumption
        · split at h
          · cases h
          · exact ih _ _ h
      · split at h
        · cases h
        · exact ih _ _ h
    · split at h
      · cases h
        assumption
      · split at h
        · cases h
        · exact ih _ _ h

/-- C1: if `SATSolver.solve` returns SAT, every clause of the input clause
list contains a literal that is true under the final assignment (positive
literal with its variable assigned `True`, or negative literal with its
variable assigned `False`): the `return True` at line 191 of `tester.py` is
guarded by exactly this check over the original clauses. -/
theorem solve_C1_sat_model (clauses : List Clause) (fuel pfuel : Nat) (m : CDCLSolver)
    (h : solve clauses fuel pfuel = .sat m) :
    ∀ c ∈ clauses, ∃ l ∈ c, litTrue m.assignment l := by
  apply checkAllSat_sound
  unfold solve at h
  split at h
  · cases h
  · exact solveLoop_sat clauses pfuel fuel _ m h

theorem isSat_state (r : SolveResult) (h : r.isSat = true) : r = .sat r.state := by
  cases r
  · rfl
  all_goals simp [SolveResult.isSat] at h

/-- Witness for C1: `solve [[1]]` returns SAT and its model satisfies the
clause. -/
theorem solve_C1_witness :
    ∃ m, solve [[1]] 1 3 = .sat m ∧ ∃ l ∈ ([1] : Clause), litTrue m.assignment l := by
  refine ⟨(solve [[1]] 1 3).state, isSat_state (solve [[1]] 1 3) (by decide), ?_⟩
  exact solve_C1_sat_model [[1]] 1 3 ((solve [[1]] 1 3).state)
    (isSat_state (solve [[1]] 1 3) (by decide)) [1] (by simp)

/-- Helper: a clause classified as conflicting has every literal assigned and
false (and nothing had been accumulated as unassigned). -/
theorem classifyGo_conflicting (a : List (Nat × Bool)) :
    ∀ (lits acc : List Int), classifyGo a lits acc = .conflicting →
      acc = [] ∧ ∀ l ∈ lits, litFalse a l := by
  intro lits
  induction lits with
  | nil =>
    intro acc h
    simp only [classifyGo] at h
    split at h
    · exact ⟨rfl, by simp⟩
    · cases h
    · cases h
  | cons hd tl ih =>
    intro acc h
    simp only [classifyGo] at h
    split at h
    · rename_i v hlk
      split at h
      · cases h
      · rename_i hval
        rcases ih acc h with ⟨hacc, htl⟩
        refine ⟨hacc, ?_⟩
        intro l hl
        rcases List.mem_cons.1 hl with hl | hl
        · subst hl
          exact ⟨v, hlk, Bool.of_not_eq_true hval⟩
        · exact htl l hl
    · rename_i hlk
      rcases ih (acc ++ [hd]) h with ⟨hacc, _⟩
      cases acc <;> simp at hacc

/-- Helper: a clause classified as satisfied contains a true literal. -/
theorem classifyGo_satisfied (a : List (Nat × Bool)) :
    ∀ (lits acc : List Int), classifyGo a lits acc = .satisfied →
      ∃ l ∈ lits, litTrue a l := by
  intro lits
  induction lits with
  | nil =>
    intro acc h
    simp only [classifyGo] at h
    split at h <;> cases h
  | cons hd tl ih =>
    intro acc h
    simp only [classifyGo] at h
    split at h
    · rename_i v hlk
      split at h
      · rename_i hval
        refine ⟨hd, List.mem_cons_self hd tl, ?_⟩
        rcases Bool.or_eq_true_iff.1 hval with hpos | hneg
        · rcases Bool.and_eq_true_iff.1 hpos with ⟨h1, h2⟩
          exact Or.inl ⟨of_decide_eq_true h1, h2 ▸ hlk⟩
        · rcases Bool.and_eq_true_iff.1 hneg with ⟨h1, h2⟩
          refine Or.inr ⟨of_decide_eq_true h1, ?_⟩
          have : v = false := by
            cases v
            · rfl
            · simp at h2
          exact this ▸ hlk
      · rcases ih acc h with ⟨l, hl, hlt⟩
        exact ⟨l, List.mem_cons_of_mem hd hl, hlt⟩
    · rcases ih (acc ++ [hd]) h with ⟨l, hl, hlt⟩
      exact ⟨l, List.mem_cons_of_mem hd hl, hlt⟩

/-- Helper: a clause classified as pending has at least two unassigned
literal occurrences. -/
theorem classifyGo_pending_count (a : List (Nat × Bool)) :
    ∀ (lits acc : List Int), classifyGo a lits acc = .pending →
      2 ≤ acc.length + (lits.filter (fun l => litUnassigned a l)).length := by
  intro lits
  induction lits with
  | nil =>
    intro acc h
    simp only [classifyGo] at h
    split at h
    · cases h
    · cases h
    · rename_i h1 h2
      cases acc with
      | nil => exact absurd rfl h1
      | cons x xs =>
        cases xs with
        | nil => exact absurd rfl (h2 x)
        | cons y ys => simp
  | cons hd tl ih =>
    intro acc h
    simp only [classifyGo] at h
    split at h
    · rename_i v hlk
      split at h
      · cases h
      · have hrec := ih acc h
        have hun : litUnassigned a hd = false := by
          simp [litUnassigned, hlk]
        simp only [List.filter_cons, hun]
        simpa using hrec
    · rename_i hlk
      have hrec := ih (acc ++ [hd]) h
      have hun : litUnassigned a hd = true := by
        simp [litUnassigned, hlk]
      simp [List.filter_cons, hun] at hrec ⊢
      omega

/-- Helper: activity bumps touch only activity and `bump_value`. -/
theorem bump_core (s : CDCLSolver) (v : Nat) :
    (bump_variable_activity s v).assignment = s.assignment ∧
    (bump_variable_activity s v).level = s.level ∧
    (bump_variable_activity s v).antecedent = s.antecedent ∧
    (bump_variable_activity s v).trail = s.trail ∧
    (bump_variable_activity s v).decision_level = s.decision_level ∧
    (bump_variable_activity s v).learned_clauses = s.learned_clauses ∧
    (bump_variable_activity s v).clause_deletion_threshold = s.clause_deletion_threshold := by
  refine ⟨?_, ?_, ?_, ?_, ?_, ?_, ?_⟩ <;>
    (simp only [bump_variable_activity]; split <;> split) <;> rfl

/-- Helper: folding bumps over a clause touches only activities. -/
theorem foldl_bump_core (c : List Int) :
    ∀ s : CDCLSolver,
      (c.foldl (fun s l => bump_variable_activity s l.natAbs) s).assignment = s.assignment ∧
      (c.foldl (fun s l => bump_variable_activity s l.natAbs) s).level = s.level ∧
      (c.foldl (fun s l => bump_variable_activity s l.natAbs) s).antecedent = s.antecedent ∧
      (c.foldl (fun s l => bump_variable_activity s l.natAbs) s).trail = s.trail ∧
      (c.foldl (fun s l => bump_variable_activity s l.natAbs) s).decision_level = s.decision_level := by
  induction c with
  | nil => intro s; exact ⟨rfl, rfl, rfl, rfl, rfl⟩
  | cons hd tl ih =>
    intro s
    rw [List.foldl_cons]
    rcases ih (bump_variable_activity s hd.natAbs) with ⟨h1, h2, h3, h4, h5⟩
    rcases bump_core s hd.natAbs with ⟨g1, g2, g3, g4, g5, _, _⟩
    exact ⟨h1.trans g1, h2.trans g2, h3.trans g3, h4.trans g4, h5.trans g5⟩

/-- Helper: clause-activity bumps touch no core field. -/
theorem bump_clause_core (s : CDCLSolver) (idx : Nat) :
    (bump_clause_activity s idx).assignment = s.assignment ∧
    (bump_clause_activity s idx).level = s.level ∧
    (bump_clause_activity s idx).antecedent = s.antecedent ∧
    (bump_clause_activity s idx).trail = s.trail ∧
    (bump_clause_activity s idx).decision_level = s.decision_level :=
  ⟨rfl, rfl, rfl, rfl, rfl⟩

/-- Helper: the conflict bookkeeping (counter, bumps, decays) leaves
assignment, levels, antecedents, trail and decision level unchanged. -/
theorem conflictUpdates_core (s : CDCLSolver) (c : Clause) (i t : Nat) :
    (conflictUpdates s c i t).assignment = s.assignment ∧
    (conflictUpdates s c i t).level = s.level ∧
    (conflictUpdates s c i t).antecedent = s.antecedent ∧
    (conflictUpdates s c i t).trail = s.trail ∧
    (conflictUpdates s c i t).decision_level = s.decision_level := by
  simp only [conflictUpdates, decay_clause_activity, decay_variable_activity]
  rcases foldl_bump_core c { s with conflicts := s.conflicts + 1 } with ⟨h1, h2, h3, h4, h5⟩
  split
  · rcases bump_clause_core (c.foldl (fun s l => bump_variable_activity s l.natAbs)
      { s with conflicts := s.conflicts + 1 }) _ with ⟨g1, g2, g3, g4, g5⟩
    exact ⟨g1.trans h1, g2.trans h2, g3.trans h3, g4.trans h4, g5.trans h5⟩
  · exact ⟨h1, h2, h3, h4, h5⟩

/-- Helper: a conflict reported by a sweep was classified as conflicting
under the assignment the sweep ran with, which the bookkeeping preserves. -/
theorem sweepGo_conflict (s : CDCLSolver) (total : Nat) :
    ∀ (cs : List Clause) (idx : Nat) (c : Clause) (s1 : CDCLSolver),
      sweepGo s total cs idx = .conflict c s1 →
      classifyClause s.assignment c = .conflicting ∧ s1.assignment = s.assignment := by
  intro cs
  induction cs with
  | nil => intro idx c s1 h; cases h
  | cons hd tl ih =>
    intro idx c s1 h
    simp only [sweepGo] at h
    split at h
    · exact ih _ c s1 h
    · exact ih _ c s1 h
    · rename_i hcl
      cases h
      exact ⟨hcl, (conflictUpdates_core s hd idx total).1⟩
    · cases h

/-- Helper: a sweep that reaches the end of the clause list changed nothing
and classified every clause as satisfied or pending. -/
theorem sweepGo_fixpoint (s : CDCLSolver) (total : Nat) :
    ∀ (cs : List Clause) (idx : Nat) (s1 : CDCLSolver),
      sweepGo s total cs idx = .fixpoint s1 →
      s1 = s ∧ ∀ c ∈ cs, classifyClause s.assignment c = .satisfied ∨
        classifyClause s.assignment c = .pending := by
  intro cs
  induction cs with
  | nil =>
    intro idx s1 h
    cases h
    exact ⟨rfl, by simp⟩
  | cons hd tl ih =>
    intro idx s1 h
    simp only [sweepGo] at h
    split at h
    · rename_i hcl
      rcases ih _ s1 h with ⟨he, hall⟩
      refine ⟨he, ?_⟩
      intro c hc
      rcases List.mem_cons.1 hc with hc | hc
      · exact hc ▸ Or.inl hcl
      · exact hall c hc
    · rename_i hcl
      rcases ih _ s1 h with ⟨he, hall⟩
      refine ⟨he, ?_⟩
      intro c hc
      rcases List.mem_cons.1 hc with hc | hc
      · exact hc ▸ Or.inr hcl
      · exact hall c hc
    · cases h
    · cases h

/-- Helper: a conflict returned by `unit_propagate` is conflicting under the
returned assignment. -/
theorem unit_propagate_conflict_classify :
    ∀ (fuel : Nat) (cs : List Clause) (s : CDCLSolver) (c : Clause) (s1 : CDCLSolver),
      unit_propagate fuel cs s = .conflictR c s1 →
      classifyClause s1.assignment c = .conflicting := by
  intro fuel
  induction fuel with
  | zero => intro cs s c s1 h; cases h
  | succ n ih =>
    intro cs s c s1 h
    simp only [unit_propagate] at h
    split at h
    · rename_i hsw
      cases h
      rcases sweepGo_conflict s cs.length cs 0 c s1 hsw with ⟨hcl, ha⟩
      rw [ha]
      exact hcl
    · rename_i hsw
      exact ih cs _ c s1 h
    · cases h

/-- Helper: a no-conflict return means every clause is satisfied or pending
under the returned assignment. -/
theorem unit_propagate_noConflict_fix :
    ∀ (fuel : Nat) (cs : List Clause) (s : CDCLSolver) (s1 : CDCLSolver),
      unit_propagate fuel cs s = .noConflict s1 →
      ∀ c ∈ cs, classifyClause s1.assignment c = .satisfied ∨
        classifyClause s1.assignment c = .pending := by
  intro fuel
  induction fuel with
  | zero => intro cs s s1 h; cases h
  | succ n ih =>
    intro cs s s1 h
    simp only [unit_propagate] at h
    split at h
    · cases h
    · exact ih cs _ s1 h
    · rename_i hsw
      cases h
      rcases sweepGo_fixpoint s cs.length cs 0 s1 hsw with ⟨he, hall⟩
      rw [he]
      exact hall

/-- C4: if `unit_propagate` returns a conflict clause, every literal of that
clause is false under the assignment at return time; if it returns no
conflict, the assignment is at a fixed point: every clause is either
satisfied or has at least two unassigned literals. -/
theorem propagate_C4 (fuel : Nat) (cs : List Clause) (s : CDCLSolver) :
    (∀ (c : Clause) (s1 : CDCLSolver), unit_propagate fuel cs s = .conflictR c s1 →
      ∀ l ∈ c, litFalse s1.assignment l) ∧
    (∀ s1 : CDCLSolver, unit_propagate fuel cs s = .noConflict s1 →
      ∀ c ∈ cs, (∃ l ∈ c, litTrue s1.assignment l) ∨
        2 ≤ (c.filter (fun l => litUnassigned s1.assignment l)).length) := by
  constructor
  · intro c s1 h l hl
    have hcl := unit_propagate_conflict_classify fuel cs s c s1 h
    exact (classifyGo_conflicting s1.assignment c [] hcl).2 l hl
  · intro s1 h c hc
    rcases unit_propagate_noConflict_fix fuel cs s s1 h c hc with hcl | hcl
    · exact Or.inl (classifyGo_satisfied s1.assignment c [] hcl)
    · right
      have := classifyGo_pending_count s1.assignment c [] hcl
      simpa using this

/-- Helper: unpack a Boolean conflict test into the constructor equation. -/
theorem isConflictOn_state (r : PropResult) (c : Clause)
    (h : r.isConflictOn c = true) : r = .conflictR c r.state := by
  cases r with
  | conflictR c2 s =>
    simp [PropResult.isConflictOn] at h
    subst h
    rfl
  | noConflict s => simp [PropResult.isConflictOn] at h
  | fuelout s => simp [PropResult.isConflictOn] at h

/-- Witness for C4: propagating `[[1], [-1]]` from the initial state ends in
the conflict clause `[-1]`, whose only literal is false (variable 1 is
assigned true). -/
theorem propagate_C4_witness :
    ∃ s1, unit_propagate 3 [[1], [-1]] CDCLSolver.mkInit = .conflictR [-1] s1 ∧
      ∀ l ∈ ([-1] : Clause), litFalse s1.assignment l := by
  refine ⟨(unit_propagate 3 [[1], [-1]] CDCLSolver.mkInit).state, ?_, ?_⟩
  · exact isConflictOn_state _ _ (by decide)
  · exact (propagate_C4 3 [[1], [-1]] CDCLSolver.mkInit).1 _ _
      (isConflictOn_state _ _ (by decide))

/-- Helper: the head of a list is a member. -/
theorem mem_of_head? {α : Type} {l : List α} {a : α} (h : l.head? = some a) : a ∈ l := by
  cases l with
  | nil => cases h
  | cons x xs =>
    simp at h
    exact h ▸ List.mem_cons_self x xs

/-- Specification of the `backtrack` pop loop on the reversed trail: it
splits the reversed trail into a popped prefix `pre` (all above the target
level) and the kept rest; popped variables are erased from all three maps,
everything else is untouched, and the first kept entry is at or below the
target level. -/
theorem btPop_spec (lvl : Nat) :
    ∀ (rt : List Nat) (a : List (Nat × Bool)) (l : List (Nat × Nat))
      (ant : List (Nat × Clause)),
      rt.Nodup → akeysNodup a → akeysNodup l → akeysNodup ant →
      ∃ pre : List Nat,
        rt = pre ++ (btPop lvl rt a l ant).1 ∧
        (∀ v ∈ pre, (alookup l v).getD 0 > lvl) ∧
        (∀ v ∈ pre,
          alookup (btPop lvl rt a l ant).2.1 v = none ∧
          alookup (btPop lvl rt a l ant).2.2.1 v = none ∧
          alookup (btPop lvl rt a l ant).2.2.2 v = none) ∧
        (∀ w, w ∉ pre →
          alookup (btPop lvl rt a l ant).2.1 w = alookup a w ∧
          alookup (btPop lvl rt a l ant).2.2.1 w = alookup l w ∧
          alookup (btPop lvl rt a l ant).2.2.2 w = alookup ant w) ∧
        (∀ v, (btPop lvl rt a l ant).1.head? = some v → (alookup l v).getD 0 ≤ lvl) ∧
        akeysNodup (btPop lvl rt a l ant).2.1 ∧
        akeysNodup (btPop lvl rt a l ant).2.2.1 ∧
        akeysNodup (btPop lvl rt a l ant).2.2.2 := by
  intro rt
  induction rt with
  | nil =>
    intro a l ant _ hka hkl hkant
    refine ⟨[], by simp [btPop], by simp, by simp, ?_, ?_, hka, hkl, hkant⟩
    · intro w _
      exact ⟨rfl, rfl, rfl⟩
    · intro v hv
      simp [btPop] at hv
  | cons v rest ih =>
    intro a l ant hnd hka hkl hkant
    rw [List.nodup_cons] at hnd
    rcases hnd with ⟨hvn, hrest⟩
    by_cases hc : (alookup l v).getD 0 > lvl
    · rcases ih (aerase a v) (aerase l v) (aerase ant v) hrest
        (akeysNodup_aerase a v hka) (akeysNodup_aerase l v hkl)
        (akeysNodup_aerase ant v hkant) with
        ⟨pre, hdec, hlev, hnone, hunch, hhead, hna, hnl, hnant⟩
      have hbt : btPop lvl (v :: rest) a l ant =
          btPop lvl rest (aerase a v) (aerase l v) (aerase ant v) := by
        simp only [btPop, if_pos hc]
      refine ⟨v :: pre, ?_, ?_, ?_, ?_, ?_, ?_, ?_, ?_⟩ <;> try rw [hbt]
      · rw [List.cons_append]
        exact congrArg (v :: ·) hdec
      · intro u hu
        rcases List.mem_cons.1 hu with hu | hu
        · exact hu ▸ hc
        · have hur : u ∈ rest := hdec ▸ List.mem_append_left _ hu
          have hune : u ≠ v := fun he => hvn (he ▸ hur)
          have := hlev u hu
          rwa [alookup_aerase_ne l v u hune] at this
      · intro u hu
        rcases List.mem_cons.1 hu with hu | hu
        · subst hu
          have hvnotpre : u ∉ pre := fun hp => hvn (hdec ▸ List.mem_append_left _ hp)
          rcases hunch u hvnotpre with ⟨h1, h2, h3⟩
          exact ⟨h1.trans (alookup_aerase_self a u hka),
                 h2.trans (alookup_aerase_self l u hkl),
                 h3.trans (alookup_aerase_self ant u hkant)⟩
        · exact hnone u hu
      · intro w hw
        have hwv : w ≠ v := fun he => hw (he ▸ List.mem_cons_self v pre)
        have hwpre : w ∉ pre := fun hp => hw (List.mem_cons_of_mem v hp)
        rcases hunch w hwpre with ⟨h1, h2, h3⟩
        exact ⟨h1.trans (alookup_aerase_ne a v w hwv),
               h2.trans (alookup_aerase_ne l v w hwv),
               h3.trans (alookup_aerase_ne ant v w hwv)⟩
      · intro u hu
        have hur : u ∈ rest := by
          have : u ∈ (btPop lvl rest (aerase a v) (aerase l v) (aerase ant v)).1 :=
            mem_of_head? hu
          exact hdec ▸ List.mem_append_right _ this
        have hune : u ≠ v := fun he => hvn (he ▸ hur)
        have := hhead u hu
        rwa [alookup_aerase_ne l v u hune] at this
      · exact hna
      · exact hnl
      · exact hnant
    · have hbt : btPop lvl (v :: rest) a l ant = (v :: rest, a, l, ant) := by
        simp only [btPop, if_neg hc]
      refine ⟨[], by simp [hbt], by simp, by simp, ?_, ?_, ?_, ?_, ?_⟩ <;> try rw [hbt]
      · intro w _
        exact ⟨rfl, rfl, rfl⟩
      · intro u hu
        simp at hu
        subst hu
        exact Nat.le_of_not_lt hc
      · exact hka
      · exact hkl
      · exact hkant

/-- Helper: the fields of `backtrack` in terms of `btPop`. -/
theorem backtrack_fields (s : CDCLSolver) (lvl : Nat) :
    (backtrack s lvl).trail =
      (btPop lvl s.trail.reverse s.assignment s.level s.antecedent).1.reverse ∧
    (backtrack s lvl).assignment =
      (btPop lvl s.trail.reverse s.assignment s.level s.antecedent).2.1 ∧
    (backtrack s lvl).level =
      (btPop lvl s.trail.reverse s.assignment s.level s.antecedent).2.2.1 ∧
    (backtrack s lvl).antecedent =
      (btPop lvl s.trail.reverse s.assignment s.level s.antecedent).2.2.2 ∧
    (backtrack s lvl).decision_level = lvl :=
  ⟨rfl, rfl, rfl, rfl, rfl⟩

/-- C6: after `backtrack(lvl)` on a well-formed, level-sorted state: no trail
entry has level greater than `lvl`; `decision_level = lvl`; every popped
variable is absent from `assignment`, `level` and `antecedent`; and every
entry of the three maps for a variable at level at most `lvl` is unchanged. -/
theorem backtrack_C6 (s : CDCLSolver) (lvl : Nat)
    (hnd : s.trail.Nodup) (hsorted : TrailLevelsSorted s)
    (hka : akeysNodup s.assignment) (hkl : akeysNodup s.level)
    (hkant : akeysNodup s.antecedent) :
    (∀ v ∈ (backtrack s lvl).trail, ∀ k,
        alookup (backtrack s lvl).level v = some k → k ≤ lvl) ∧
    (backtrack s lvl).decision_level = lvl ∧
    (∀ v ∈ s.trail, v ∉ (backtrack s lvl).trail →
      alookup (backtrack s lvl).assignment v = none ∧
      alookup (backtrack s lvl).level v = none ∧
      alookup (backtrack s lvl).antecedent v = none) ∧
    (∀ v k, alookup s.level v = some k → k ≤ lvl →
      alookup (backtrack s lvl).assignment v = alookup s.assignment v ∧
      alookup (backtrack s lvl).level v = alookup s.level v ∧
      alookup (backtrack s lvl).antecedent v = alookup s.antecedent v) := by
  obtain ⟨ht, ha, hl, hant2, hdl⟩ := backtrack_fields s lvl
  obtain ⟨pre, hdec, hlev, hnone, hunch, hhead, _, _, _⟩ :=
    btPop_spec lvl s.trail.reverse s.assignment s.level s.antecedent
      ((List.nodup_reverse).2 hnd) hka hkl hkant
  have hrtnd : (pre ++ (btPop lvl s.trail.reverse s.assignment s.level s.antecedent).1).Nodup := by
    rw [← hdec]
    exact (List.nodup_reverse).2 hnd
  refine ⟨?_, hdl, ?_, ?_⟩
  · intro v hv k hk
    rw [ht, List.mem_reverse] at hv
    have hvp : v ∉ pre := fun hp => (List.disjoint_of_nodup_append hrtnd) hp hv
    have hunc := (hunch v hvp).2.1
    rw [hl] at hk
    have hsl : alookup s.level v = some k := hunc ▸ hk
    have hgetd : (alookup s.level v).getD 0 = k := by rw [hsl]; rfl
    have hrev : (s.trail.reverse).Pairwise
        (fun x y => (alookup s.level y).getD 0 ≤ (alookup s.level x).getD 0) := by
      rw [List.pairwise_reverse]
      exact hsorted
    have hr1p := (List.pairwise_append.1 (hdec ▸ hrev)).2.1
    cases hr1 : (btPop lvl s.trail.reverse s.assignment s.level s.antecedent).1 with
    | nil =>
      rw [hr1] at hv
      cases hv
    | cons u tail =>
      rw [hr1] at hv hr1p
      have hu : (alookup s.level u).getD 0 ≤ lvl := hhead u (by rw [hr1]; rfl)
      rcases List.mem_cons.1 hv with hveq | hvt
      · subst hveq
        rw [hgetd] at hu
        exact hu
      · have hle := (List.pairwise_cons.1 hr1p).1 v hvt
        rw [hgetd] at hle
        exact le_trans hle hu
  · intro v hv hnv
    rw [ht, List.mem_reverse] at hnv
    have hvrt : v ∈ s.trail.reverse := (List.mem_reverse).2 hv
    have hvpre : v ∈ pre := by
      rw [hdec] at hvrt
      rcases List.mem_append.1 hvrt with h1 | h1
      · exact h1
      · exact absurd h1 hnv
    rcases hnone v hvpre with ⟨h1, h2, h3⟩
    exact ⟨ha ▸ h1, hl ▸ h2, hant2 ▸ h3⟩
  · intro v k hk hkle
    have hvp : v ∉ pre := by
      intro hp
      have := hlev v hp
      rw [hk] at this
      simp at this
      omega
    rcases hunch v hvp with ⟨h1, h2, h3⟩
    exact ⟨ha ▸ h1, hl ▸ h2, hant2 ▸ h3⟩

/-- Witness for C6: backtracking `conflictState0` (four level-1 trail
entries) to level 0. -/
theorem backtrack_C6_witness :
    (∀ v ∈ (backtrack conflictState0 0).trail, ∀ k,
        alookup (backtrack conflictState0 0).level v = some k → k ≤ 0) ∧
    (backtrack conflictState0 0).decision_level = 0 ∧
    (∀ v ∈ conflictState0.trail, v ∉ (backtrack conflictState0 0).trail →
      alookup (backtrack conflictState0 0).assignment v = none ∧
      alookup (backtrack conflictState0 0).level v = none ∧
      alookup (backtrack conflictState0 0).antecedent v = none) ∧
    (∀ v k, alookup conflictState0.level v = some k → k ≤ 0 →
      alookup (backtrack conflictState0 0).assignment v = alookup conflictState0.assignment v ∧
      alookup (backtrack conflictState0 0).level v = alookup conflictState0.level v ∧
      alookup (backtrack conflictState0 0).antecedent v = alookup conflictState0.antecedent v) :=
  backtrack_C6 conflictState0 0 (by decide)
    (by unfold TrailLevelsSorted; decide)
    (by unfold akeysNodup; decide) (by unfold akeysNodup; decide)
    (by unfold akeysNodup; decide)

/-- Helper: `WF` only depends on trail, assignment, level and antecedent. -/
theorem WF_congr {s t : CDCLSolver} (h1 : t.trail = s.trail)
    (h2 : t.assignment = s.assignment) (h3 : t.level = s.level)
    (h4 : t.antecedent = s.antecedent) (h : WF s) : WF t := by
  unfold WF at h ⊢
  rw [h1, h2, h3, h4]
  exact h

/-- Helper: the freshly constructed solver state is well-formed. -/
theorem wf_mkInit : WF CDCLSolver.mkInit := by
  unfold WF CDCLSolver.mkInit
  refine ⟨by simp, ?_, ?_, ?_, by simp [akeysNodup], by simp [akeysNodup],
    by simp [akeysNodup]⟩ <;> intro v <;> simp [alookup]

/-- Helper: `backtrack` preserves the mutual-domain invariant. -/
theorem backtrack_WF (s : CDCLSolver) (lvl : Nat) (h : WF s) :
    WF (backtrack s lvl) := by
  obtain ⟨hnd, hiffa, hiffl, hsub, hka, hkl, hkant⟩ := h
  obtain ⟨ht, ha, hl, hant2, _⟩ := backtrack_fields s lvl
  obtain ⟨pre, hdec, hlev, hnone, hunch, hhead, hna, hnl, hnant⟩ :=
    btPop_spec lvl s.trail.reverse s.assignment s.level s.antecedent
      ((List.nodup_reverse).2 hnd) hka hkl hkant
  have hrtnd : (pre ++ (btPop lvl s.trail.reverse s.assignment s.level s.antecedent).1).Nodup := by
    rw [← hdec]
    exact (List.nodup_reverse).2 hnd
  have hmemt : ∀ v, v ∈ (backtrack s lvl).trail ↔
      v ∈ (btPop lvl s.trail.reverse s.assignment s.level s.antecedent).1 := by
    intro v
    rw [ht, List.mem_reverse]
  have hnotpre : ∀ v, v ∈ (btPop lvl s.trail.reverse s.assignment s.level s.antecedent).1 →
      v ∉ pre := fun v hv hp => (List.disjoint_of_nodup_append hrtnd) hp hv
  have hmemrt : ∀ v, v ∈ (btPop lvl s.trail.reverse s.assignment s.level s.antecedent).1 →
      v ∈ s.trail := by
    intro v hv
    have : v ∈ s.trail.reverse := hdec ▸ List.mem_append_right _ hv
    exact (List.mem_reverse).1 this
  have hsplit : ∀ v, v ∈ s.trail → v ∉ pre →
      v ∈ (btPop lvl s.trail.reverse s.assignment s.level s.antecedent).1 := by
    intro v hv hp
    have : v ∈ s.trail.reverse := (List.mem_reverse).2 hv
    rw [hdec] at this
    rcases List.mem_append.1 this with h1 | h1
    · exact absurd h1 hp
    · exact h1
  refine ⟨?_, ?_, ?_, ?_, ?_, ?_, ?_⟩
  · rw [ht]
    rw [List.nodup_reverse]
    exact (List.nodup_append.1 hrtnd).2.1
  · intro v
    rw [hmemt, ha]
    constructor
    · intro hv
      rw [(hunch v (hnotpre v hv)).1]
      exact (hiffa v).1 (hmemrt v hv)
    · intro hv
      by_cases hp : v ∈ pre
      · rw [(hnone v hp).1] at hv
        cases hv
      · rw [(hunch v hp).1] at hv
        exact hsplit v ((hiffa v).2 hv) hp
  · intro v
    rw [hmemt, hl]
    constructor
    · intro hv
      rw [(hunch v (hnotpre v hv)).2.1]
      exact (hiffl v).1 (hmemrt v hv)
    · intro hv
      by_cases hp : v ∈ pre
      · rw [(hnone v hp).2.1] at hv
        cases hv
      · rw [(hunch v hp).2.1] at hv
        exact hsplit v ((hiffl v).2 hv) hp
  · intro v hv
    rw [hant2] at hv
    rw [hmemt]
    by_cases hp : v ∈ pre
    · rw [(hnone v hp).2.2] at hv
      cases hv
    · rw [(hunch v hp).2.2] at hv
      exact hsplit v (hsub v hv) hp
  · rw [ha]; exact hna
  · rw [hl]; exact hnl
  · rw [hant2]; exact hnant

/-- Helper: the literal of a unit classification is unassigned. -/
theorem classifyGo_unit_unassigned (a : List (Nat × Bool)) :
    ∀ (lits acc : List Int) (l : Int),
      (∀ x ∈ acc, alookup a x.natAbs = none) →
      classifyGo a lits acc = .unitOn l → alookup a l.natAbs = none := by
  intro lits
  induction lits with
  | nil =>
    intro acc l hacc h
    simp only [classifyGo] at h
    split at h
    · cases h
    · rename_i l1
      cases h
      exact hacc l (by simp)
    · cases h
  | cons hd tl ih =>
    intro acc l hacc h
    simp only [classifyGo] at h
    split at h
    · rename_i v hlk
      split at h
      · cases h
      · exact ih acc l hacc h
    · rename_i hlk
      refine ih (acc ++ [hd]) l ?_ h
      intro x hx
      rcases List.mem_append.1 hx with hx | hx
      · exact hacc x hx
      · simp at hx
        exact hx ▸ hlk

/-- Helper: a sweep that made progress assigned the unit literal of some
clause it classified as unit. -/
theorem sweepGo_progress (s : CDCLSolver) (total : Nat) :
    ∀ (cs : List Clause) (idx : Nat) (s1 : CDCLSolver),
      sweepGo s total cs idx = .progress s1 →
      ∃ c lit, classifyClause s.assignment c = .unitOn lit ∧ s1 = assignUnit s c lit := by
  intro cs
  induction cs with
  | nil => intro idx s1 h; cases h
  | cons hd tl ih =>
    intro idx s1 h
    simp only [sweepGo] at h
    split at h
    · exact ih _ s1 h
    · exact ih _ s1 h
    · cases h
    · rename_i lit hcl
      cases h
      exact ⟨hd, lit, hcl, rfl⟩

/-- Helper: a successful lookup after an update is the written key or an old
key. -/
theorem alookup_aset_isSome {α : Type} (m : List (Nat × α)) (k w : Nat) (v : α)
    (h : (alookup (aset m k v) w).isSome = true) :
    w = k ∨ (alookup m w).isSome = true := by
  by_cases hw : w = k
  · exact Or.inl hw
  · rw [alookup_aset_ne m k w v hw] at h
    exact Or.inr h

/-- Helper: assigning the literal of a unit clause preserves the
mutual-domain invariant. -/
theorem assignUnit_WF (s : CDCLSolver) (c : Clause) (l : Int) (h : WF s)
    (hun : alookup s.assignment l.natAbs = none) : WF (assignUnit s c l) := by
  obtain ⟨hnd, hiffa, hiffl, hsub, hka, hkl, hkant⟩ := h
  have hvn : l.natAbs ∉ s.trail := by
    intro hmem
    have := (hiffa l.natAbs).1 hmem
    rw [hun] at this
    cases this
  have hb := bump_core
    { s with assignment := aset s.assignment l.natAbs (decide (l > 0)),
             saved_phases := aset s.saved_phases l.natAbs (decide (l > 0)),
             level := aset s.level l.natAbs s.decision_level,
             antecedent := aset s.antecedent l.natAbs c,
             trail := s.trail ++ [l.natAbs] } l.natAbs
  refine WF_congr hb.2.2.2.1 hb.1 hb.2.1 hb.2.2.1 ?_
  refine ⟨?_, ?_, ?_, ?_, ?_, ?_, ?_⟩
  · simp only [List.nodup_append, List.nodup_cons, List.nodup_nil]
    exact ⟨hnd, by simp, by simpa using hvn⟩
  · intro v
    by_cases hv : v = l.natAbs
    · subst hv
      simp [alookup_aset_self]
    · rw [alookup_aset_ne _ _ _ _ hv]
      simp only [List.mem_append, List.mem_cons, List.not_mem_nil, or_false]
      constructor
      · intro hmem
        rcases hmem with hmem | hmem
        · exact (hiffa v).1 hmem
        · exact absurd hmem hv
      · intro hmem
        exact Or.inl ((hiffa v).2 hmem)
  · intro v
    by_cases hv : v = l.natAbs
    · subst hv
      simp [alookup_aset_self]
    · rw [alookup_aset_ne _ _ _ _ hv]
      simp only [List.mem_append, List.mem_cons, List.not_mem_nil, or_false]
      constructor
      · intro hmem
        rcases hmem with hmem | hmem
        · exact (hiffl v).1 hmem
        · exact absurd hmem hv
      · intro hmem
        exact Or.inl ((hiffl v).2 hmem)
  · intro v hv
    simp only [List.mem_append, List.mem_cons, List.not_mem_nil, or_false]
    rcases alookup_aset_isSome s.antecedent l.natAbs v c hv with hv1 | hv1
    · exact Or.inr hv1
    · exact Or.inl (hsub v hv1)
  · exact akeysNodup_aset _ _ _ hka
  · exact akeysNodup_aset _ _ _ hkl
  · exact akeysNodup_aset _ _ _ hkant

/-- Helper: the conflict exit of a sweep leaves the four core fields
unchanged. -/
theorem sweepGo_conflict_fields (s : CDCLSolver) (total : Nat) :
    ∀ (cs : List Clause) (idx : Nat) (c : Clause) (s1 : CDCLSolver),
      sweepGo s total cs idx = .conflict c s1 →
      s1.assignment = s.assignment ∧ s1.level = s.level ∧
      s1.antecedent = s.antecedent ∧ s1.trail = s.trail := by
  intro cs
  induction cs with
  | nil => intro idx c s1 h; cases h
  | cons hd tl ih =>
    intro idx c s1 h
    simp only [sweepGo] at h
    split at h
    · exact ih _ c s1 h
    · exact ih _ c s1 h
    · cases h
      obtain ⟨h1, h2, h3, h4, _⟩ := conflictUpdates_core s hd idx total
      exact ⟨h1, h2, h3, h4⟩
    · cases h

/-- Helper: `unit_propagate` preserves the mutual-domain invariant. -/
theorem unit_propagate_WF :
    ∀ (fuel : Nat) (cs : List Clause) (s : CDCLSolver), WF s →
      WF (unit_propagate fuel cs s).state := by
  intro fuel
  induction fuel with
  | zero => intro cs s h; exact h
  | succ n ih =>
    intro cs s h
    simp only [unit_propagate]
    split
    · rename_i c s1 hsw
      obtain ⟨h1, h2, h3, h4⟩ := sweepGo_conflict_fields s cs.length cs 0 c s1 hsw
      exact WF_congr h4 h1 h2 h3 h
    · rename_i s1 hsw
      obtain ⟨c, lit, hcl, hs1⟩ := sweepGo_progress s cs.length cs 0 s1 hsw
      have hun := classifyGo_unit_unassigned s.assignment c [] lit (by simp) hcl
      exact ih cs s1 (hs1 ▸ assignUnit_WF s c lit h hun)
    · rename_i s1 hsw
      obtain ⟨he, _⟩ := sweepGo_fixpoint s cs.length cs 0 s1 hsw
      exact he ▸ h

/-- Helper: Python's `max` fold returns an element of the list. -/
theorem foldl_max_mem (P : Nat → Nat → Prop) [DecidableRel P] :
    ∀ (vs : List Nat) (v0 : Nat),
      vs.foldl (fun b v => if P v b then v else b) v0 ∈ v0 :: vs := by
  intro vs
  induction vs with
  | nil => intro v0; simp
  | cons hd tl ih =>
    intro v0
    rw [List.foldl_cons]
    rcases List.mem_cons.1 (ih (if P hd v0 then hd else v0)) with h1 | h1
    · rw [h1]
      split
      · simp
      · simp
    · simp [List.mem_cons_of_mem, h1]

/-- Helper: `make_decision` preserves the mutual-domain invariant. -/
theorem make_decision_WF (s : CDCLSolver) (h : WF s) : WF (make_decision s).2 := by
  obtain ⟨hnd, hiffa, hiffl, hsub, hka, hkl, hkant⟩ := h
  simp only [make_decision]
  split
  · exact ⟨hnd, hiffa, hiffl, hsub, hka, hkl, hkant⟩
  · rename_i v0 vs hunas
    set best := vs.foldl
      (fun b v =>
        if (alookup s.activity v).getD 0 > (alookup s.activity b).getD 0 then v else b) v0
      with hbest
    have hbmem : best ∈ v0 :: vs :=
      foldl_max_mem (fun v b => (alookup s.activity v).getD 0 > (alookup s.activity b).getD 0)
        vs v0
    have hbun : (alookup s.assignment best).isNone = true := by
      have : best ∈ ((List.range s.max_var).map (· + 1)).filter
          (fun v => (alookup s.assignment v).isNone) := by
        rw [← hunas] at hbmem
        exact hbmem
      exact (List.mem_filter.1 this).2
    have hbnone : alookup s.assignment best = none := by
      cases hlk : alookup s.assignment best
      · rfl
      · rw [hlk] at hbun
        cases hbun
    have hvn : best ∉ s.trail := by
      intro hmem
      have := (hiffa best).1 hmem
      rw [hbnone] at this
      cases this
    refine ⟨?_, ?_, ?_, ?_, ?_, ?_, ?_⟩
    · simp only [List.nodup_append, List.nodup_cons, List.nodup_nil]
      exact ⟨hnd, by simp, by simpa using hvn⟩
    · intro v
      by_cases hv : v = best
      · subst hv
        simp [alookup_aset_self]
      · rw [alookup_aset_ne _ _ _ _ hv]
        simp only [List.mem_append, List.mem_cons, List.not_mem_nil, or_false]
        constructor
        · intro hmem
          rcases hmem with hmem | hmem
          · exact (hiffa v).1 hmem
          · exact absurd hmem hv
        · intro hmem
          exact Or.inl ((hiffa v).2 hmem)
    · intro v
      by_cases hv : v = best
      · subst hv
        simp [alookup_aset_self]
      · rw [alookup_aset_ne _ _ _ _ hv]
        simp only [List.mem_append, List.mem_cons, List.not_mem_nil, or_false]
        constructor
        · intro hmem
          rcases hmem with hmem | hmem
          · exact (hiffl v).1 hmem
          · exact absurd hmem hv
        · intro hmem
          exact Or.inl ((hiffl v).2 hmem)
    · intro v hv
      simp only [List.mem_append, List.mem_cons, List.not_mem_nil, or_false]
      exact Or.inl (hsub v hv)
    · exact akeysNodup_aset _ _ _ hka
    · exact akeysNodup_aset _ _ _ hkl
    · exact hkant

/-- Helper: `perform_restart` preserves the mutual-domain invariant. -/
theorem perform_restart_WF (s : CDCLSolver) (h : WF s) : WF (perform_restart s) := by
  have hb := backtrack_WF s 0 h
  exact WF_congr rfl rfl rfl rfl hb

/-- C9: the mutual-domain invariant `WF` — trail variables, assignment keys
and level keys coincide, antecedent keys are a subset, and the trail has no
duplicates — is preserved by `backtrack`, `make_decision`, `perform_restart`
and `unit_propagate`. -/
theorem state_C9_domains (s : CDCLSolver) (h : WF s) :
    (∀ lvl, WF (backtrack s lvl)) ∧ WF (make_decision s).2 ∧
    WF (perform_restart s) ∧
    (∀ (fuel : Nat) (cs : List Clause), WF (unit_propagate fuel cs s).state) :=
  ⟨fun lvl => backtrack_WF s lvl h, make_decision_WF s h, perform_restart_WF s h,
   fun fuel cs => unit_propagate_WF fuel cs s h⟩

/-- Witness for C9: the initial state is well-formed and stays so after a
backtrack. -/
theorem state_C9_witness :
    WF CDCLSolver.mkInit ∧ WF (backtrack CDCLSolver.mkInit 0) :=
  ⟨wf_mkInit, (state_C9_domains CDCLSolver.mkInit wf_mkInit).1 0⟩

/-- Helper: a predicate preserved by each fold step holds of the fold. -/
theorem foldl_preserve {α β : Type} (f : β → α → β) (P : β → Prop)
    (hstep : ∀ b a, P b → P (f b a)) :
    ∀ (l : List α) (b : β), P b → P (l.foldl f b) := by
  intro l
  induction l with
  | nil => intro b hb; exact hb
  | cons hd tl ih =>
    intro b hb
    exact ih (f b hd) (hstep b hd hb)

/-- Helper: the initial conflict-clause scan only bumps activities; levels
and the decision level are unchanged. -/
theorem initialScan_core (s : CDCLSolver) (c : Clause) :
    (initialScan s c).2.2.level = s.level ∧
    (initialScan s c).2.2.decision_level = s.decision_level := by
  unfold initialScan
  refine foldl_preserve _
    (fun acc => acc.2.2.level = s.level ∧ acc.2.2.decision_level = s.decision_level)
    ?_ c (([], [], s) : List Nat × List Int × CDCLSolver) ⟨rfl, rfl⟩
  intro b a hb
  dsimp only
  rcases hb with ⟨h1, h2⟩
  split
  · split
    · rcases bump_core b.2.2 a.natAbs with ⟨_, g2, _, _, g5, _, _⟩
      exact ⟨g2.trans h1, g5.trans h2⟩
    · exact ⟨h1, h2⟩
  · exact ⟨h1, h2⟩

/-- Helper: resolving with an antecedent only bumps activities and edits the
literal lists. -/
theorem resolveWithAntecedent_core (dl : Nat) (var : Nat) (ante : Clause)
    (st : List Int × List Nat × List Int × CDCLSolver) :
    (resolveWithAntecedent dl var ante st).2.2.2.level = st.2.2.2.level ∧
    (resolveWithAntecedent dl var ante st).2.2.2.decision_level = st.2.2.2.decision_level := by
  unfold resolveWithAntecedent
  refine foldl_preserve _
    (fun acc => acc.2.2.2.level = st.2.2.2.level ∧
      acc.2.2.2.decision_level = st.2.2.2.decision_level)
    ?_ ante st ⟨rfl, rfl⟩
  intro b a hb
  dsimp only
  rcases hb with ⟨h1, h2⟩
  split
  · rcases bump_core b.2.2.2 a.natAbs with ⟨_, g2, _, _, g5, _, _⟩
    split
    · exact ⟨g2.trans h1, g5.trans h2⟩
    · split
      · exact ⟨g2.trans h1, g5.trans h2⟩
      · exact ⟨g2.trans h1, g5.trans h2⟩
  · exact ⟨h1, h2⟩
/-- Helper: one resolution step preserves levels and the decision level. -/
theorem resolveOnce_core (st : List Int × List Nat × List Int × CDCLSolver) :
    (resolveOnce st).2.2.2.level = st.2.2.2.level ∧
    (resolveOnce st).2.2.2.decision_level = st.2.2.2.decision_level := by
  unfold resolveOnce
  dsimp only
  split
  · rename_i ante hante
    exact resolveWithAntecedent_core _ _ _ _
  · exact ⟨rfl, rfl⟩

/-- Helper: the resolution loop preserves levels and the decision level. -/
theorem resolutionLoop_core :
    ∀ (n : Nat) (st : List Int × List Nat × List Int × CDCLSolver),
      (resolutionLoop n st).2.2.2.level = st.2.2.2.level ∧
      (resolutionLoop n st).2.2.2.decision_level = st.2.2.2.decision_level := by
  intro n
  induction n with
  | zero => intro st; exact ⟨rfl, rfl⟩
  | succ m ih =>
    intro st
    simp only [resolutionLoop]
    split
    · rcases ih (resolveOnce st) with ⟨h1, h2⟩
      rcases resolveOnce_core st with ⟨g1, g2⟩
      exact ⟨h1.trans g1, h2.trans g2⟩
    · exact ⟨rfl, rfl⟩

/-- Helper: clause-database cleaning preserves levels. -/
theorem clean_core (s : CDCLSolver) :
    (clean_learned_clauses s).level = s.level ∧
    (clean_learned_clauses s).decision_level = s.decision_level := by
  unfold clean_learned_clauses
  split
  · exact ⟨rfl, rfl⟩
  · exact ⟨rfl, rfl⟩

/-- Helper: the whole resolution phase of `analyze_conflict` leaves `level`
and `decision_level` unchanged. -/
theorem analyzeState_core (s : CDCLSolver) (c : Clause) :
    (analyzeState s c).level = s.level ∧
    (analyzeState s c).decision_level = s.decision_level := by
  unfold analyzeState
  dsimp only
  rcases resolutionLoop_core 20 (c, (initialScan s c).1, (initialScan s c).2.1,
    (initialScan s c).2.2) with ⟨h1, h2⟩
  rcases initialScan_core s c with ⟨g1, g2⟩
  split
  · rcases clean_core (decay_variable_activity (resolutionLoop 20 (c, (initialScan s c).1,
      (initialScan s c).2.1, (initialScan s c).2.2)).2.2.2) with ⟨k1, k2⟩
    exact ⟨(k1.trans h1).trans g1, (k2.trans h2).trans g2⟩
  · exact ⟨h1.trans g1, h2.trans g2⟩

/-- Helper: the backtrack-level fold never decreases its accumulator. -/
theorem backLevelGo_ge (t : CDCLSolver) :
    ∀ (lits : List Int) (back second : Nat), back ≤ backLevelGo t lits back second := by
  intro lits
  induction lits with
  | nil => intro back second; exact Nat.le_refl back
  | cons hd tl ih =>
    intro back second
    simp only [backLevelGo]
    split
    · exact ih back second
    · rename_i k hk
      split
      · split
        · rename_i hks hkb
          exact Nat.le_trans (Nat.le_of_lt hkb) (ih k back)
        · exact ih back k
      · exact ih back second

/-- Helper: the backtrack-level fold bounds every below-decision-level
literal level of the list (the `second_highest` bookkeeping stays below the
accumulator). -/
theorem backLevelGo_ub (t : CDCLSolver) :
    ∀ (lits : List Int) (back second : Nat), second ≤ back →
      ∀ l ∈ lits, ∀ k, alookup t.level l.natAbs = some k → k < t.decision_level →
        k ≤ backLevelGo t lits back second := by
  intro lits
  induction lits with
  | nil => intro back second _ l hl; cases hl
  | cons hd tl ih =>
    intro back second hsb l hl k hlk hkdl
    simp only [backLevelGo]
    rcases List.mem_cons.1 hl with hl | hl
    · subst hl
      split
      · rename_i hcond
        rw [hlk] at hcond
        cases hcond
      · rename_i k2 hcond
        rw [hlk] at hcond
        have hk2 : k2 = k := by
          injection hcond with h12
          exact h12.symm
        subst hk2
        split
        · split
          · exact backLevelGo_ge t tl k2 back
          · rename_i hnb
            exact Nat.le_trans (Nat.le_of_not_lt hnb) (backLevelGo_ge t tl back k2)
        · rename_i hcond2
          rw [not_and_or] at hcond2
          rcases hcond2 with hc | hc
          · have hks : k2 ≤ second := Nat.le_of_not_lt hc
            exact Nat.le_trans (Nat.le_trans hks hsb) (backLevelGo_ge t tl back second)
          · exact absurd hkdl hc
    · split
      · exact ih back second hsb l hl k hlk hkdl
      · rename_i k2 hk2
        split
        · split
          · rename_i hks hkb
            exact ih k2 back (Nat.le_of_lt hkb) l hl k hlk hkdl
          · rename_i hnb
            exact ih back k2 (Nat.le_of_not_lt hnb) l hl k hlk hkdl
        · exact ih back second hsb l hl k hlk hkdl

/-- Helper: the fold's result is its initial value or an attained
below-decision-level literal level. -/
theorem backLevelGo_attain (t : CDCLSolver) :
    ∀ (lits : List Int) (back second : Nat),
      backLevelGo t lits back second = back ∨
      ∃ l ∈ lits, alookup t.level l.natAbs = some (backLevelGo t lits back second) ∧
        backLevelGo t lits back second < t.decision_level := by
  intro lits
  induction lits with
  | nil => intro back second; exact Or.inl rfl
  | cons hd tl ih =>
    intro back second
    simp only [backLevelGo]
    split
    · rcases ih back second with h | ⟨l, hl, h1, h2⟩
      · exact Or.inl h
      · exact Or.inr ⟨l, List.mem_cons_of_mem hd hl, h1, h2⟩
    · rename_i k hk
      split
      · rename_i hcond
        split
        · rcases ih k back with h | ⟨l, hl, h1, h2⟩
          · refine Or.inr ⟨hd, List.mem_cons_self hd tl, ?_, ?_⟩
            · rw [h]
              exact hk
            · rw [h]
              exact hcond.2
          · exact Or.inr ⟨l, List.mem_cons_of_mem hd hl, h1, h2⟩
        · rcases ih back k with h | ⟨l, hl, h1, h2⟩
          · exact Or.inl h
          · exact Or.inr ⟨l, List.mem_cons_of_mem hd hl, h1, h2⟩
      · rcases ih back second with h | ⟨l, hl, h1, h2⟩
        · exact Or.inl h
        · exact Or.inr ⟨l, List.mem_cons_of_mem hd hl, h1, h2⟩

/-- Helper: the Python `minimize_clause` body appends every literal
unchanged, so it is the identity. -/
theorem minimize_clause_id :
    ∀ (c : Clause) , minimize_clause c = c := by
  have haux : ∀ (c acc : List Int), c.foldl (fun acc l => acc ++ [l]) acc = acc ++ c := by
    intro c
    induction c with
    | nil => intro acc; simp
    | cons hd tl ih =>
      intro acc
      rw [List.foldl_cons, ih (acc ++ [hd])]
      simp
  intro c
  unfold minimize_clause
  rw [haux c []]
  simp

/-- Helper: membership in the returned clause is membership in the filtered
`learned` list (deduplication and minimization change nothing there). -/
theorem final_mem_iff (t : CDCLSolver) (back : Nat) (learned : List Int) (l : Int) :
    (l ∈ (if ((finalFilter t back learned).dedup).length > 20 then
            minimize_clause ((finalFilter t back learned).dedup)
          else (finalFilter t back learned).dedup) ↔
      l ∈ finalFilter t back learned) := by
  split
  · rw [minimize_clause_id, List.mem_dedup]
  · rw [List.mem_dedup]

/-- C5 amended: the backjump level returned by `analyze_conflict` equals the
MAXIMUM level STRICTLY BELOW the current decision level among the literals of
the returned learned clause, or 0 if there is none (in particular 0 for a
unit learned clause).  The original claim's "maximum among literals other
than the UIP" fails because the returned clause can keep several
current-decision-level literals (see the counterexample); the code computes
the maximum over levels below `decision_level` only. -/
theorem analyze_C5_amended (s : CDCLSolver) (c : Clause) :
    (∀ l ∈ (analyze_conflict s c).2.1, ∀ k, alookup s.level l.natAbs = some k →
      k < s.decision_level → k ≤ (analyze_conflict s c).1) ∧
    ((analyze_conflict s c).1 = 0 ∨
      ∃ l ∈ (analyze_conflict s c).2.1,
        alookup s.level l.natAbs = some (analyze_conflict s c).1 ∧
        (analyze_conflict s c).1 < s.decision_level) := by
  obtain ⟨hlev, hdl⟩ := analyzeState_core s c
  have he1 : (analyze_conflict s c).1 =
      backLevelGo (analyzeState s c) (analyzeLearnedPre s c) 0 0 := rfl
  have he2 : (analyze_conflict s c).2.1 =
      (if ((finalFilter (analyzeState s c)
              (backLevelGo (analyzeState s c) (analyzeLearnedPre s c) 0 0)
              (analyzeLearnedPre s c)).dedup).length > 20 then
         minimize_clause ((finalFilter (analyzeState s c)
              (backLevelGo (analyzeState s c) (analyzeLearnedPre s c) 0 0)
              (analyzeLearnedPre s c)).dedup)
       else (finalFilter (analyzeState s c)
              (backLevelGo (analyzeState s c) (analyzeLearnedPre s c) 0 0)
              (analyzeLearnedPre s c)).dedup) := rfl
  constructor
  · intro l hl k hlk hkdl
    rw [he2, final_mem_iff] at hl
    have hml : l ∈ analyzeLearnedPre s c := (List.mem_filter.1 hl).1
    rw [he1]
    refine backLevelGo_ub (analyzeState s c) (analyzeLearnedPre s c) 0 0
      (Nat.le_refl 0) l hml k ?_ ?_
    · rw [hlev]
      exact hlk
    · rw [hdl]
      exact hkdl
  · rcases backLevelGo_attain (analyzeState s c) (analyzeLearnedPre s c) 0 0 with h | h
    · exact Or.inl (he1 ▸ h)
    · rcases h with ⟨l, hl, h1, h2⟩
      right
      refine ⟨l, ?_, ?_, ?_⟩
      · rw [he2, final_mem_iff]
        unfold finalFilter
        rw [List.mem_filter]
        refine ⟨hl, ?_⟩
        rw [h1]
        simp
      · rw [he1, ← hlev]
        exact h1
      · rw [he1, ← hdl]
        exact h2

/-- Witness for the amended C5 at the concrete reachable conflict state. -/
theorem analyze_C5_witness :
    (∀ l ∈ (analyze_conflict conflictState0 [-3, -4]).2.1, ∀ k,
        alookup conflictState0.level l.natAbs = some k →
        k < conflictState0.decision_level →
        k ≤ (analyze_conflict conflictState0 [-3, -4]).1) ∧
    ((analyze_conflict conflictState0 [-3, -4]).1 = 0 ∨
      ∃ l ∈ (analyze_conflict conflictState0 [-3, -4]).2.1,
        alookup conflictState0.level l.natAbs =
          some (analyze_conflict conflictState0 [-3, -4]).1 ∧
        (analyze_conflict conflictState0 [-3, -4]).1 <
          conflictState0.decision_level) :=
  analyze_C5_amended conflictState0 [-3, -4]
